import Mathlib

/-!
Verification of the Graphite node-graph execution runtime
(`editor/src/node_graph_executor.rs`).

The development shallowly embeds the control-plane code of the executor:
the compiled-program cache check (`update_node_graph`), the dispatch path
(`queue_execution` plus the ledger push performed by the submit functions),
the result router (`poll_node_graph_evaluation`), the export encoder
dispatch (`process_export`, `image_to_ascii_svg`), and the test-only
instrumentation pass (`Instrumented::add` / `Instrumented::new`).

Machine integers (`u64`, `u32`) are modelled as `Nat` (no arithmetic in the
modelled code can overflow in practice: ids are monotonically handed out one
per evaluation).  `f32`/`f64` quantities are modelled as exact rationals;
the only place float values feed a decision is the ascii-art luminance
mapping, whose rounding agrees with rational rounding for the non-negative
values that occur.  Byte buffers produced from UTF-8 strings are modelled by
the strings themselves.  Rust `Result` is `Except`, `Option` is `Option`,
`VecDeque` used as a queue is a `List` with the front at the head.
-/

namespace Graphite

/-! ## Abstract carriers

Payloads that the executor moves around but never inspects are modelled as
single-field wrappers of `Nat`.  Their internal structure is irrelevant to
every property proved below; only identity (decidable equality) is used. -/

abbrev NodeId := Nat
abbrev DocumentId := Nat

/-- Abstract carrier for `graphene_std::vector::Vector` payloads. -/
structure VectorData where
  payload : Nat
deriving DecidableEq

/-- Abstract carrier for a click-target table entry. -/
structure ClickTarget where
  payload : Nat
deriving DecidableEq

/-- Abstract carrier for a clip-target table. -/
structure ClipTargets where
  payload : Nat
deriving DecidableEq

/-- Abstract carrier for `ResolvedDocumentNodeTypesDelta` (type-resolution
delta computed by the interpreter; opaque to the router). -/
structure ResolvedDocumentNodeTypesDelta where
  payload : Nat
deriving DecidableEq

/-- Abstract carrier for `graph_craft::proto::GraphErrors`. -/
structure GraphErrors where
  payload : Nat
deriving DecidableEq

/-- Abstract carrier for the inspected-value record attached to a response. -/
structure InspectResult where
  payload : Nat
deriving DecidableEq

/-- Abstract carrier for the per-frame image data sent alongside SVG. -/
structure ImageData where
  payload : Nat
deriving DecidableEq

/-- Abstract carrier for the upstream-footprint table of `RenderMetadata`. -/
structure UpstreamFootprints where
  payload : Nat
deriving DecidableEq

/-- Abstract carrier for the local-transform table of `RenderMetadata`. -/
structure LocalTransforms where
  payload : Nat
deriving DecidableEq

/-- Abstract carrier for the document network snapshot carried by a
`GraphUpdate` request (its graph structure is modelled separately, in the
instrumentation section; the cache check only clones and forwards it). -/
structure DocumentNetwork where
  payload : Nat
deriving DecidableEq

/-- Abstract carrier for `glam::DAffine2`.  `format_transform_matrix`
produces the empty string exactly on the representation of the identity. -/
structure DAffine2 where
  payload : Nat
deriving DecidableEq

/-- `graphene_std::renderer::format_transform_matrix`: abstracted; empty
exactly for the identity representation (`payload = 0`). -/
def format_transform_matrix (m : DAffine2) : String :=
  if m.payload = 0 then "" else "matrix(" ++ toString m.payload ++ ")"

/-! ## Render configuration and contexts -/

/-- `graphene_std::transform::Footprint` (viewport transform + resolution). -/
structure Footprint where
  transform : DAffine2
  resolutionX : Nat
  resolutionY : Nat
deriving DecidableEq

inductive ExportFormat where
  | svg
  | raster
deriving DecidableEq

/-- `graphene_std::application_io::RenderConfig`.  `time` and `pointer` are
kept abstract; `render_mode` is the abstract mode index. -/
structure RenderConfig where
  viewport : Footprint
  scale : ℚ
  time : Nat
  pointerX : ℚ
  pointerY : ℚ
  export_format : ExportFormat
  render_mode : Nat
  hide_artboards : Bool
  for_export : Bool
  for_eyedropper : Bool
deriving DecidableEq

inductive FileType where
  | svg
  | png
  | jpg
  | ascii
deriving DecidableEq

/-- `FileType::to_mime` (only its result string is ever observed). -/
def FileType.to_mime : FileType → String
  | .svg => "image/svg+xml"
  | .png => "image/png"
  | .jpg => "image/jpeg"
  | .ascii => "image/svg+xml"

/-- `crate::messages::frontend::utility_types::ExportConfig` — the fields
read by `process_export` and `submit_document_export`. -/
structure ExportConfig where
  file_type : FileType
  name : String
  sizeX : ℚ
  sizeY : ℚ
  scale_factor : ℚ
  transparent_background : Bool
  artboard_name : Option String
  artboard_count : Nat
deriving DecidableEq

/-- `ExecutionContext` — per-request bundle stored in the `futures` ledger. -/
structure ExecutionContext where
  render_config : RenderConfig
  export_config : Option ExportConfig
  document_id : DocumentId
deriving DecidableEq

/-- `SurfaceFrame` for the live-canvas render path. -/
structure SurfaceFrame where
  surface_id : Nat
  resolutionX : Nat
  resolutionY : Nat
  transform : DAffine2
deriving DecidableEq

/-! ## Render output values -/

inductive RenderOutputType where
  | svg (svg : String) (image_data : List ImageData)
  | canvasFrame (frame : SurfaceFrame)
  | texture (payload : Nat)
  | buffer (data : List Nat) (width : Nat) (height : Nat)
  | otherOutput (payload : Nat)
deriving DecidableEq

/-- `graphene_std::renderer::RenderMetadata`. -/
structure RenderMetadata where
  upstream_footprints : UpstreamFootprints
  local_transforms : LocalTransforms
  first_element_source_id : Option NodeId
  click_targets : List (NodeId × ClickTarget)
  clip_targets : ClipTargets
deriving DecidableEq

structure RenderOutput where
  data : RenderOutputType
  metadata : RenderMetadata
deriving DecidableEq

/-- `TaggedValue` — the executor only distinguishes `RenderOutput` from
every other constructor. -/
inductive TaggedValue where
  | renderOutput (ro : RenderOutput)
  | otherValue (payload : Nat)
deriving DecidableEq

/-- Debug formatting (`{:#?}` / `{}`) of values, used only inside error
strings; abstracted to constructor names. -/
def RenderOutputType.debugName : RenderOutputType → String
  | .svg _ _ => "Svg"
  | .canvasFrame _ => "CanvasFrame"
  | .texture _ => "Texture"
  | .buffer _ _ _ => "Buffer"
  | .otherOutput _ => "Other"

def TaggedValue.debugName : TaggedValue → String
  | .renderOutput _ => "RenderOutput"
  | .otherValue _ => "Other"

/-! ## Messages

The editor's `Message` tree, restricted to the constructors the executor
enqueues.  The frontend messages carried inside an `ExecutionResponse` are
injected with `Into` in the source; here they are already of this type. -/

inductive Message where
  | overlaysDraw
  | frontendUpdateImageData (image_data : List ImageData)
  | frontendUpdateDocumentArtwork (svg : String)
  | frontendTriggerSaveFile (name : String) (content : String)
  | frontendTriggerExportImage (svg : String) (name : String) (mime : String)
      (sizeX : ℚ) (sizeY : ℚ)
  | frontendTriggerDownload (name : String) (content : String)
  | documentUpdateUpstreamTransforms (upstream_footprints : UpstreamFootprints)
      (local_transforms : LocalTransforms) (first_element_source_id : Option NodeId)
  | documentUpdateClickTargets (click_targets : List (NodeId × ClickTarget))
  | documentUpdateClipTargets (clip_targets : ClipTargets)
  | documentRenderScrollbars
  | documentRenderRulers
  | nodeGraphUpdateTypes (resolved_types : ResolvedDocumentNodeTypesDelta)
      (node_graph_errors : GraphErrors)
  | nodeGraphSendGraph
  | deferTriggerGraphRun (execution_id : Nat) (document_id : DocumentId)
  | deferSetGraphSubmissionIndex (execution_id : Nat)
  | dataPanelUpdateLayout (inspect_result : InspectResult)
  | dataPanelClearLayout
  | eyedropperPreviewImage (data : List Nat) (width : Nat) (height : Nat)
  | otherMessage (payload : Nat)
deriving DecidableEq

/-! ## Channel messages -/

structure ExecutionRequest where
  execution_id : Nat
  render_config : RenderConfig
  export_file_type : Option FileType
deriving DecidableEq

/-- Requests sent over the runtime channel (`GraphRuntimeRequest`). -/
inductive GraphRuntimeRequest where
  | executionRequest (r : ExecutionRequest)
  | fontCacheUpdate (payload : Nat)
  | editorPreferencesUpdate (payload : Nat)
  | graphUpdate (network : DocumentNetwork) (node_to_inspect : Option NodeId)
deriving DecidableEq

structure ExecutionResponse where
  execution_id : Nat
  result : Except String TaggedValue
  responses : List Message
  vector_modify : List (NodeId × VectorData)
  inspect_result : Option InspectResult

structure CompilationResponse where
  result : Except (ResolvedDocumentNodeTypesDelta × String) ResolvedDocumentNodeTypesDelta
  node_graph_errors : GraphErrors

/-- Responses drained by `poll_node_graph_evaluation`.  The source enum has a
third constructor (`NodeGraphUpdateMessage`) that the runtime-transport layer
routes elsewhere; the poll loop only ever matches these two. -/
inductive NodeGraphUpdate where
  | executionResponse (r : ExecutionResponse)
  | compilationResponse (r : CompilationResponse)

/-! ## Executor and document state -/

/-- The part of `NodeNetworkInterface` the executor touches. -/
structure NetworkInterface where
  network_hash : Nat
  document_network : DocumentNetwork
  click_targets : List (NodeId × ClickTarget)
  vector_modify : List (NodeId × VectorData)
deriving DecidableEq

/-- The part of `DocumentMessageHandler` the executor touches. -/
structure DocumentMessageHandler where
  network_interface : NetworkInterface
deriving DecidableEq

/-- `NodeGraphExecutor`.  The runtime channel is modelled by returning the
list of sent requests from each operation rather than as a field. -/
structure NodeGraphExecutor where
  current_execution_id : Nat
  futures : List (Nat × ExecutionContext)
  node_graph_hash : Nat
  previous_node_to_inspect : Option NodeId
  last_svg_canvas : Option SurfaceFrame
deriving DecidableEq

/-- `Default::default()` for the executor. -/
def NodeGraphExecutor.init : NodeGraphExecutor :=
  { current_execution_id := 0
    futures := []
    node_graph_hash := 0
    previous_node_to_inspect := none
    last_svg_canvas := none }

/-! ## Dispatch path -/

/-- `NodeGraphExecutor::queue_execution`: allocate the next execution id and
send the execution request.  Returns (new state, sent request, id). -/
def queue_execution (ex : NodeGraphExecutor) (render_config : RenderConfig)
    (export_file_type : Option FileType) :
    NodeGraphExecutor × GraphRuntimeRequest × Nat :=
  let execution_id := ex.current_execution_id
  let ex := { ex with current_execution_id := ex.current_execution_id + 1 }
  let request : ExecutionRequest :=
    { execution_id := execution_id
      render_config := render_config
      export_file_type := export_file_type }
  (ex, .executionRequest request, execution_id)

/-- The dispatch pattern shared by `submit_current_node_graph_evaluation`,
`submit_eyedropper_preview` and `submit_document_export`: queue an
execution and push its context at the back of the `futures` ledger. -/
def submitExecution (ex : NodeGraphExecutor) (render_config : RenderConfig)
    (export_config : Option ExportConfig) (document_id : DocumentId) :
    NodeGraphExecutor × GraphRuntimeRequest × Nat :=
  let (ex, request, execution_id) :=
    queue_execution ex render_config (export_config.map (·.file_type))
  let ex := { ex with
    futures := ex.futures ++
      [(execution_id,
        { render_config := render_config
          export_config := export_config
          document_id := document_id })] }
  (ex, request, execution_id)

/-- `NodeGraphExecutor::update_node_graph`: refresh the runtime's graph when
the network hash changed, the inspected node changed, or the caller forces
it.  Returns the new state and the requests sent (zero or one
`GraphUpdate`).  The channel send is modelled as always succeeding, as in
the connected-runtime configuration. -/
def update_node_graph (ex : NodeGraphExecutor) (doc : DocumentMessageHandler)
    (node_to_inspect : Option NodeId) (ignore_hash : Bool) :
    NodeGraphExecutor × List GraphRuntimeRequest :=
  let network_hash := doc.network_interface.network_hash
  if network_hash ≠ ex.node_graph_hash ∨ ex.previous_node_to_inspect ≠ node_to_inspect ∨ ignore_hash then
    let network := doc.network_interface.document_network
    let ex := { ex with
      previous_node_to_inspect := node_to_inspect
      node_graph_hash := network_hash }
    (ex, [.graphUpdate network node_to_inspect])
  else
    (ex, [])

/-! ## Ascii-art SVG rendering (`image_to_ascii_svg`, gpu build) -/

/-- Raster buffer as used by `image::RgbaImage`: row-major RGBA bytes. -/
structure RgbaImage where
  width : Nat
  height : Nat
  data : List Nat
deriving DecidableEq

/-- `RgbaImage::from_raw`: `None` when the container is too small. -/
def RgbaImage.from_raw (width height : Nat) (data : List Nat) : Option RgbaImage :=
  if width * height * 4 ≤ data.length then some ⟨width, height, data⟩ else none

/-- `image.get_pixel(x, y)` as an RGBA quadruple. -/
def RgbaImage.get_pixel (img : RgbaImage) (x y : Nat) : Nat × Nat × Nat × Nat :=
  let base := (y * img.width + x) * 4
  (img.data.getD base 0, img.data.getD (base + 1) 0,
   img.data.getD (base + 2) 0, img.data.getD (base + 3) 0)

def ASCII_CHARS : List Char := [' ', '.', ',', ':', ';', 'i', '1', 't', 'f', 'L', 'C', 'G', '0', '8', '@']
def CHAR_WIDTH : ℚ := 6
def CHAR_HEIGHT : ℚ := 10
def CONTRAST_FACTOR : ℚ := 6 / 5
def CELL_SIZE : Nat := 8

/-- `f32::round` for the non-negative values produced here (ties away from
zero coincides with ties up on non-negatives). -/
def ratRound (q : ℚ) : ℤ := ⌊q + 1 / 2⌋

/-- `.clamp(0.0, 1.0)`. -/
def clamp01 (x : ℚ) : ℚ := max 0 (min x 1)

def get_luminance (p : Nat × Nat × Nat × Nat) : ℚ :=
  ((299 / 1000 : ℚ) * p.1 + (587 / 1000 : ℚ) * p.2.1 + (114 / 1000 : ℚ) * p.2.2.1) / 255

def contrast (lum : ℚ) : ℚ := clamp01 ((lum - 1 / 2) * CONTRAST_FACTOR + 1 / 2)

/-- `sample_cell`: average luminance (after contrast) and average colour of
one `CELL_SIZE × CELL_SIZE` cell (clipped at the image borders). -/
def sample_cell (img : RgbaImage) (cell_x cell_y : Nat) : ℚ × (Nat × Nat × Nat) :=
  let start_x := cell_x * CELL_SIZE
  let start_y := cell_y * CELL_SIZE
  let end_x := min (start_x + CELL_SIZE) img.width
  let end_y := min (start_y + CELL_SIZE) img.height
  let pixels := (List.range' start_y (end_y - start_y)).flatMap
    (fun y => (List.range' start_x (end_x - start_x)).map (fun x => img.get_pixel x y))
  let count := pixels.length
  if count = 0 then (0, (0, 0, 0))
  else
    let total_lum := (pixels.map get_luminance).sum
    let total_r := (pixels.map (·.1)).sum
    let total_g := (pixels.map (·.2.1)).sum
    let total_b := (pixels.map (·.2.2.1)).sum
    (contrast (total_lum / count), (total_r / count, total_g / count, total_b / count))

def hexDigit (n : Nat) : Char :=
  if n < 10 then Char.ofNat (48 + n) else Char.ofNat (97 + (n - 10))

/-- `{:02x}` formatting of a byte. -/
def byteHex (n : Nat) : String := String.mk [hexDigit (n / 16 % 16), hexDigit (n % 16)]

/-- Display of the rational stand-ins for `f32` values; every value
formatted by this file is an integer. -/
def fmtQ (q : ℚ) : String :=
  if q.den = 1 then toString q.num else toString q.num ++ "/" ++ toString q.den

/-- The per-cell fragment of a `<text>` row. -/
def asciiCell (img : RgbaImage) (col row : Nat) : String :=
  let (lum, color) := sample_cell img col row
  let color_hex := "#" ++ byteHex color.1 ++ byteHex color.2.1 ++ byteHex color.2.2
  let char_idx := min (ratRound (lum * ((ASCII_CHARS.length - 1 : Nat) : ℚ))).toNat (ASCII_CHARS.length - 1)
  let ascii_char := ASCII_CHARS.getD char_idx ' '
  if ascii_char = ' ' then " "
  else
    let content := match ascii_char with
      | '<' => "&lt;"
      | '>' => "&gt;"
      | '&' => "&amp;"
      | '"' => "&quot;"
      | c => String.mk [c]
    "<tspan fill=\"" ++ color_hex ++ "\">" ++ content ++ "</tspan>"

def xmlProlog : String := "<?xml version=\"1.0\" encoding=\"UTF-8\" standalone=\"no\"?>"

/-- The interior of the ascii-art SVG document: everything `image_to_ascii_svg`
pushes between the XML prolog and the closing `</svg>`. -/
def image_to_ascii_svg_inner (image : RgbaImage) : String :=
  let ascii_cols := max (image.width / CELL_SIZE) 1
  let ascii_rows := max (image.height / CELL_SIZE) 1
  let svg_width := (ascii_cols : ℚ) * CHAR_WIDTH
  let svg_height := (ascii_rows : ℚ) * CHAR_HEIGHT
  let rowStr := fun (row : Nat) =>
    "<text x=\"0\" y=\"" ++ fmtQ (((row : ℚ) + 1) * CHAR_HEIGHT) ++ "\" xml:space=\"preserve\">"
      ++ String.join ((List.range ascii_cols).map (fun col => asciiCell image col row))
      ++ "</text>"
  ("<svg xmlns=\"http://www.w3.org/2000/svg\" width=\"" ++ fmtQ svg_width
      ++ "\" height=\"" ++ fmtQ svg_height ++ "\">")
    ++ "<style>text\x7bfont-family:\x27Courier New\x27,Courier,monospace;font-size:10px;white-space:pre;\x7d</style>"
    ++ "<rect width=\"100%\" height=\"100%\" fill=\"black\" />"
    ++ String.join ((List.range ascii_rows).map rowStr)

/-- `image_to_ascii_svg`: transcode a raster buffer into an SVG document of
ascii-art text rows.  Returns the document and its pixel size. -/
def image_to_ascii_svg (image : RgbaImage) : String × (ℚ × ℚ) :=
  let ascii_cols := max (image.width / CELL_SIZE) 1
  let ascii_rows := max (image.height / CELL_SIZE) 1
  let svg_width := (ascii_cols : ℚ) * CHAR_WIDTH
  let svg_height := (ascii_rows : ℚ) * CHAR_HEIGHT
  (xmlProlog ++ image_to_ascii_svg_inner image ++ "</svg>",
   (svg_width, svg_height))

/-! ## Result handlers -/

/-- The still-image encoders of the external `image` crate (`write_to` with
`ImageFormat::Png`/`Jpeg`, after the opaque-background `RgbImage`
conversion).  Kept abstract: the handlers are verified for every encoder. -/
structure ImageEncoder where
  encode_png : Bool → RgbaImage → Except String String
  encode_jpg : RgbaImage → Except String String

def FileType.debugName : FileType → String
  | .svg => "Svg"
  | .png => "Png"
  | .jpg => "Jpg"
  | .ascii => "Ascii"

/-- `NodeGraphExecutor::process_export` (gpu build: the raster-buffer arm is
compiled in).  In the source every `Err` return in a branch precedes any
`responses.add` of that branch, so an error leaves the queue untouched;
the model returns the extended queue only on success. -/
def process_export (enc : ImageEncoder) (node_graph_output : TaggedValue)
    (export_config : ExportConfig) (responses : List Message) :
    Except String (List Message) :=
  let file_type := export_config.file_type
  let file_extension := match file_type with
    | .svg => "svg"
    | .png => "png"
    | .jpg => "jpg"
    | .ascii => "svg"
  let base_name := match export_config.artboard_name, export_config.artboard_count with
    | some artboard_name, count =>
        if count > 1 then export_config.name ++ " - " ++ artboard_name else export_config.name
    | none, _ => export_config.name
  let name := base_name ++ "." ++ file_extension
  let catchAll : Except String (List Message) :=
    .error ("Incorrect render type for exporting to an SVG ("
      ++ file_type.debugName ++ ", " ++ node_graph_output.debugName ++ ")")
  match node_graph_output with
  | .renderOutput ro =>
    match ro.data with
    | .svg svg _image_data =>
        if file_type = .svg then
          .ok (responses ++ [.frontendTriggerSaveFile name svg])
        else if file_type = .ascii then
          .error "ASCII export requires raster output. Please ensure your document contains raster content or use PNG/JPG export."
        else
          let mime := file_type.to_mime
          .ok (responses ++ [.frontendTriggerExportImage svg name mime
            (export_config.sizeX * export_config.scale_factor)
            (export_config.sizeY * export_config.scale_factor)])
    | .buffer data width height =>
        if file_type ≠ .svg then
          match RgbaImage.from_raw width height data with
          | none => .error "Failed to create image buffer for export"
          | some image =>
            match file_type with
            | .png =>
                match enc.encode_png export_config.transparent_background image with
                | .error err => .error ("Failed to encode PNG: " ++ err)
                | .ok encoded => .ok (responses ++ [.frontendTriggerSaveFile name encoded])
            | .jpg =>
                match enc.encode_jpg image with
                | .error err => .error ("Failed to encode JPG: " ++ err)
                | .ok encoded => .ok (responses ++ [.frontendTriggerSaveFile name encoded])
            | .svg => .error "SVG cannot be exported from an image buffer"
            | .ascii =>
                let ascii_svg := (image_to_ascii_svg image).1
                .ok (responses ++ [.frontendTriggerSaveFile name ascii_svg])
        else catchAll
    | _ => catchAll
  | _ => catchAll

/-- `NodeGraphExecutor::process_eyedropper_preview`: best-effort; output
kinds without a raw buffer are silently ignored. -/
def process_eyedropper_preview (node_graph_output : TaggedValue)
    (responses : List Message) : Except String (List Message) :=
  match node_graph_output with
  | .renderOutput ro =>
    match ro.data with
    | .buffer data width height =>
        .ok (responses ++ [.eyedropperPreviewImage data width height])
    | _ => .ok responses
  | _ => .ok responses

/-- `NodeGraphExecutor::process_node_graph_output`: apply a normal render
result and propagate the metadata updates. -/
def process_node_graph_output (ex : NodeGraphExecutor) (node_graph_output : TaggedValue)
    (responses : List Message) : Except String (NodeGraphExecutor × List Message) :=
  match node_graph_output with
  | .otherValue _ =>
      .error ("Invalid node graph output type: " ++ node_graph_output.debugName)
  | .renderOutput render_output =>
    let step1 : Except String (NodeGraphExecutor × List Message) :=
      match render_output.data with
      | .svg svg image_data =>
          .ok ({ ex with last_svg_canvas := none },
            responses ++ [.frontendUpdateImageData image_data,
                          .frontendUpdateDocumentArtwork svg])
      | .canvasFrame frame =>
          if ex.last_svg_canvas = some frame then .ok (ex, responses)
          else
            let matrix := format_transform_matrix frame.transform
            let transform := if matrix = "" then "" else " transform=\"" ++ matrix ++ "\""
            let svg := "<svg><foreignObject width=\"" ++ toString frame.resolutionX
              ++ "\" height=\"" ++ toString frame.resolutionY ++ "\"" ++ transform
              ++ "><div data-canvas-placeholder=\"" ++ toString frame.surface_id
              ++ "\" data-is-viewport=\"true\"></div></foreignObject></svg>"
            .ok ({ ex with last_svg_canvas := some frame },
              responses ++ [.frontendUpdateDocumentArtwork svg])
      | .texture _ => .ok (ex, responses)
      | d => .error ("Invalid node graph output type: " ++ d.debugName)
    match step1 with
    | .error e => .error e
    | .ok (ex, responses) =>
      let md := render_output.metadata
      .ok (ex, responses ++
        [.documentUpdateUpstreamTransforms md.upstream_footprints md.local_transforms
            md.first_element_source_id,
         .documentUpdateClickTargets md.click_targets,
         .documentUpdateClipTargets md.clip_targets,
         .documentRenderScrollbars,
         .documentRenderRulers,
         .overlaysDraw])

/-! ## The result router (`poll_node_graph_evaluation`) -/

/-- `NodeNetworkInterface::update_click_targets`. -/
def update_click_targets (doc : DocumentMessageHandler)
    (click_targets : List (NodeId × ClickTarget)) : DocumentMessageHandler :=
  { doc with network_interface := { doc.network_interface with click_targets := click_targets } }

/-- `NodeNetworkInterface::update_vector_modify`. -/
def update_vector_modify (doc : DocumentMessageHandler)
    (vector_modify : List (NodeId × VectorData)) : DocumentMessageHandler :=
  { doc with network_interface := { doc.network_interface with vector_modify := vector_modify } }

/-- How one processed response leaves the poll loop: continue (`ok`), return
an `Err` message string (`error`), or hit a `panic!`/failed `assert_eq!`
(`fatal`). -/
inductive PollOutcome where
  | ok
  | error (msg : String)
  | fatal (msg : String)
deriving DecidableEq

/-- The mutable state threaded through the poll loop. -/
structure PollState where
  ex : NodeGraphExecutor
  doc : DocumentMessageHandler
  responses : List Message

/-- The staleness-retirement `while` loop: pop every front ledger entry
whose id is strictly below the result's id. -/
def retireStale (futures : List (Nat × ExecutionContext)) (execution_id : Nat) :
    List (Nat × ExecutionContext) :=
  match futures with
  | [] => []
  | (fid, ctx) :: rest =>
      if fid < execution_id then retireStale rest execution_id else (fid, ctx) :: rest

/-- The purpose dispatch of a matched execution result: export handling when
an export config was recorded, eyedropper preview when the render config
asked for it, and the normal render path otherwise. -/
def dispatchToHandler (enc : ImageEncoder) (ex : NodeGraphExecutor)
    (node_graph_output : TaggedValue) (execution_context : ExecutionContext)
    (responses : List Message) : Except String (NodeGraphExecutor × List Message) :=
  match execution_context.export_config with
  | some export_config =>
      (process_export enc node_graph_output export_config responses).map
        (fun r => (ex, r))
  | none =>
      if execution_context.render_config.for_eyedropper then
        (process_eyedropper_preview node_graph_output responses).map
          (fun r => (ex, r))
      else
        process_node_graph_output ex node_graph_output responses

/-- One iteration of the `for response in results` loop of
`poll_node_graph_evaluation`. -/
def pollStep (enc : ImageEncoder) (s : PollState) :
    NodeGraphUpdate → PollState × PollOutcome
  | .executionResponse er =>
    let responses := s.responses ++ [.overlaysDraw]
    match er.result with
    | .error e =>
        let doc := update_vector_modify (update_click_targets s.doc []) []
        ({ s with doc := doc, responses := responses },
         .error ("Node graph evaluation failed:\n" ++ e))
    | .ok node_graph_output =>
        let responses := responses ++ er.responses
        let doc := update_vector_modify s.doc er.vector_modify
        match retireStale s.ex.futures er.execution_id with
        | [] =>
            ({ ex := { s.ex with futures := [] }, doc := doc, responses := responses },
             .fatal "InvalidGenerationId")
        | (fid, execution_context) :: rest =>
          let ex := { s.ex with futures := rest }
          if fid ≠ er.execution_id then
            ({ ex := ex, doc := doc, responses := responses },
             .fatal "Missmatch in execution id")
          else
            match dispatchToHandler enc ex node_graph_output execution_context responses with
            | .error e => ({ ex := ex, doc := doc, responses := responses }, .error e)
            | .ok (ex, responses) =>
              let responses := responses ++
                [.deferTriggerGraphRun er.execution_id execution_context.document_id]
              let responses := responses ++
                [match (if ex.previous_node_to_inspect.isSome then er.inspect_result else none) with
                 | some inspect_result => .dataPanelUpdateLayout inspect_result
                 | none => .dataPanelClearLayout]
              ({ ex := ex, doc := doc, responses := responses }, .ok)
  | .compilationResponse cr =>
    match cr.result with
    | .error (incomplete_delta, e) =>
        let doc := update_vector_modify (update_click_targets s.doc []) []
        let responses := s.responses ++
          [.nodeGraphUpdateTypes incomplete_delta cr.node_graph_errors, .nodeGraphSendGraph]
        ({ s with doc := doc, responses := responses },
         .error ("Node graph evaluation failed:\n" ++ e))
    | .ok type_delta =>
        let responses := s.responses ++
          [.nodeGraphUpdateTypes type_delta cr.node_graph_errors, .nodeGraphSendGraph]
        ({ s with responses := responses }, .ok)

/-- `poll_node_graph_evaluation` over one drained batch of responses: the
first non-`ok` step aborts the loop with the function's return. -/
def poll_node_graph_evaluation (enc : ImageEncoder) (s : PollState) :
    List NodeGraphUpdate → PollState × PollOutcome
  | [] => (s, .ok)
  | r :: rest =>
    match pollStep enc s r with
    | (s', .ok) => poll_node_graph_evaluation enc s' rest
    | (s', out) => (s', out)

/-! ## Interleaved dispatch/result traces

A trace interleaves dispatches with result deliveries.  Each delivered
result is processed on its own poll cycle: an `Err` return surfaces a
user-visible message and polling resumes on the next cycle, while a
panic aborts the run (second component `some` panic message). -/

inductive ExecutorEvent where
  | dispatch (render_config : RenderConfig) (export_config : Option ExportConfig)
      (document_id : DocumentId)
  | deliver (r : NodeGraphUpdate)

def runTrace (enc : ImageEncoder) (s : PollState) :
    List ExecutorEvent → PollState × Option String
  | [] => (s, none)
  | .dispatch rc ec did :: rest =>
      runTrace enc { s with ex := (submitExecution s.ex rc ec did).1 } rest
  | .deliver r :: rest =>
      match (pollStep enc s r).2 with
      | .fatal m => ((pollStep enc s r).1, some m)
      | _ => runTrace enc (pollStep enc s r).1 rest

/-! ## Admissible traces and the ledger invariant -/

/-- Interleavings in which execution results arrive in strictly increasing
execution-id order and only for previously dispatched ids (the result
stream is a subsequence of the dispatch stream in id order).  `n` is the
executor's next execution id at that point of the trace, `last` the id of
the last execution result processed so far. -/
inductive Admissible : Nat → Option Nat → List ExecutorEvent → Prop where
  | nil (n : Nat) (last : Option Nat) : Admissible n last []
  | dispatch (n : Nat) (last : Option Nat) (rc : RenderConfig)
      (ec : Option ExportConfig) (did : DocumentId) (rest : List ExecutorEvent) :
      Admissible (n + 1) last rest →
      Admissible n last (.dispatch rc ec did :: rest)
  | deliverExecution (n : Nat) (last : Option Nat) (er : ExecutionResponse)
      (rest : List ExecutorEvent) :
      (∀ r, last = some r → r < er.execution_id) →
      er.execution_id < n →
      Admissible n (some er.execution_id) rest →
      Admissible n last (.deliver (.executionResponse er) :: rest)
  | deliverCompilation (n : Nat) (last : Option Nat) (cr : CompilationResponse)
      (rest : List ExecutorEvent) :
      Admissible n last rest →
      Admissible n last (.deliver (.compilationResponse cr) :: rest)

/-- Smallest id a fresh result may carry after `last` was processed. -/
def lastBound : Option Nat → Nat
  | none => 0
  | some r => r + 1

/-- The ledger invariant maintained from a fresh executor: the pending ids
form the consecutive range from some `lo` up to the next execution id, and
every processed result so far is below `lo` — except for failed results,
whose entries linger (still above any later result's retirement line). -/
def LedgerCoherent (ex : NodeGraphExecutor) (last : Option Nat) : Prop :=
  ∃ lo, lo ≤ ex.current_execution_id ∧ lo ≤ lastBound last ∧
    ex.futures.map Prod.fst = List.range' lo (ex.current_execution_id - lo)

/-! ## Concrete fixtures used by witnesses and counterexamples -/

def mdW : RenderMetadata := ⟨⟨0⟩, ⟨0⟩, none, [], ⟨0⟩⟩
def svgOutW : TaggedValue := .renderOutput ⟨.svg "<svg></svg>" [], mdW⟩
def encW : ImageEncoder := ⟨fun _ _ => .error "no encoder", fun _ => .error "no encoder"⟩
def rcW : RenderConfig := ⟨⟨⟨0⟩, 0, 0⟩, 1, 0, 0, 0, .raster, 0, false, false, false⟩
def ctxW : ExecutionContext := ⟨rcW, none, 0⟩
def docW : DocumentMessageHandler := ⟨⟨0, ⟨0⟩, [], []⟩⟩
def erOkW (id : Nat) : ExecutionResponse := ⟨id, .ok svgOutW, [], [], none⟩
def erFailW : ExecutionResponse := ⟨0, .error "failure", [], [], none⟩
def s0W : PollState := ⟨NodeGraphExecutor.init, docW, []⟩

/-- Dispatch ids 0 and 1, process the result for 1 first, then the late
result for 0 (the spec's staleness scenario with ids 5 and 6). -/
def traceStaleW : List ExecutorEvent :=
  [.dispatch rcW none 0, .dispatch rcW none 0,
   .deliver (.executionResponse (erOkW 1)), .deliver (.executionResponse (erOkW 0))]

/-- Dispatch ids 0 and 1 and process their results in id order. -/
def traceOrderedW : List ExecutorEvent :=
  [.dispatch rcW none 0, .dispatch rcW none 0,
   .deliver (.executionResponse (erOkW 0)), .deliver (.executionResponse (erOkW 1))]

/-! ## The document graph (graph_craft) and the instrumentation pass

The shapes of `NodeNetwork`, `DocumentNode`, `NodeInput` and
`DocumentNodeImplementation` follow their use in `Instrumented::add`.  The
node table (`HashMap<NodeId, DocumentNode>`) is an association list with its
own spine (`NodeList`) so that the nested recursion stays structural; fields
the instrumentation pass does not read or only copies (`call_argument`,
`skip_deduplication`, metadata) are omitted. -/

inductive NodeInput where
  | node (node_id : NodeId) (output_index : Nat)
  | value (tagged_value : Nat) (exposed : Bool)
  | network (import_index : Nat)
  | otherInput (payload : Nat)
deriving DecidableEq

mutual
inductive DocumentNodeImplementation where
  | network (nested : NodeNetwork)
  | protoNode (identifier : String)
  | extract
deriving DecidableEq
inductive DocumentNode where
  | mk (inputs : List NodeInput) (implementation : DocumentNodeImplementation)
deriving DecidableEq
inductive NodeList where
  | nil
  | cons (id : NodeId) (node : DocumentNode) (tail : NodeList)
deriving DecidableEq
inductive NodeNetwork where
  | mk (nodes : NodeList) (exports : List NodeInput)
deriving DecidableEq
end

def DocumentNode.inputs : DocumentNode → List NodeInput
  | .mk i _ => i

def DocumentNode.implementation : DocumentNode → DocumentNodeImplementation
  | .mk _ impl => impl

def NodeNetwork.nodes : NodeNetwork → NodeList
  | .mk n _ => n

def NodeNetwork.exports : NodeNetwork → List NodeInput
  | .mk _ e => e

/-- First-match lookup in the node table. -/
def NodeList.find? : NodeList → NodeId → Option DocumentNode
  | .nil, _ => none
  | .cons id node tail, k => if id = k then some node else tail.find? k

def NodeNetwork.find? (net : NodeNetwork) (k : NodeId) : Option DocumentNode :=
  net.nodes.find? k

def NodeList.append : NodeList → NodeList → NodeList
  | .nil, l => l
  | .cons id node tail, l => .cons id node (tail.append l)

def NodeList.keys : NodeList → List NodeId
  | .nil => []
  | .cons id _ tail => id :: tail.keys

def NodeList.length : NodeList → Nat
  | .nil => 0
  | .cons _ _ tail => tail.length + 1

/-- The id carried by an input edge (0 for non-edge inputs). -/
def NodeInput.ref : NodeInput → Nat
  | .node id _ => id
  | _ => 0

def inputsMaxRef (l : List NodeInput) : Nat := (l.map NodeInput.ref).foldr max 0

mutual
/-- Largest id occurring anywhere in the network: node keys and edge
targets, recursively including nested subgraph networks.  Fresh monitor ids
are allocated strictly above it. -/
def NodeNetwork.maxRef : NodeNetwork → Nat
  | .mk nodes exports => max (NodeList.maxRef nodes) (inputsMaxRef exports)
def NodeList.maxRef : NodeList → Nat
  | .nil => 0
  | .cons id node tail => max (max id (DocumentNode.maxRef node)) (NodeList.maxRef tail)
def DocumentNode.maxRef : DocumentNode → Nat
  | .mk inputs impl => max (inputsMaxRef inputs) (DocumentNodeImplementation.maxRef impl)
def DocumentNodeImplementation.maxRef : DocumentNodeImplementation → Nat
  | .network nested => NodeNetwork.maxRef nested
  | .protoNode _ => 0
  | .extract => 0
end

mutual
/-- Number of nodes, counting the nodes of nested subgraph networks. -/
def NodeNetwork.totalNodes : NodeNetwork → Nat
  | .mk nodes _ => NodeList.totalNodes nodes
def NodeList.totalNodes : NodeList → Nat
  | .nil => 0
  | .cons _ node tail => 1 + DocumentNode.totalNodes node + NodeList.totalNodes tail
def DocumentNode.totalNodes : DocumentNode → Nat
  | .mk _ impl => DocumentNodeImplementation.totalNodes impl
def DocumentNodeImplementation.totalNodes : DocumentNodeImplementation → Nat
  | .network nested => NodeNetwork.totalNodes nested
  | .protoNode _ => 0
  | .extract => 0
end

mutual
/-- Number of input slots, counting the nodes of nested subgraph networks. -/
def NodeNetwork.totalInputs : NodeNetwork → Nat
  | .mk nodes _ => NodeList.totalInputs nodes
def NodeList.totalInputs : NodeList → Nat
  | .nil => 0
  | .cons _ node tail => DocumentNode.totalInputs node + NodeList.totalInputs tail
def DocumentNode.totalInputs : DocumentNode → Nat
  | .mk inputs impl => inputs.length + DocumentNodeImplementation.totalInputs impl
def DocumentNodeImplementation.totalInputs : DocumentNodeImplementation → Nat
  | .network nested => NodeNetwork.totalInputs nested
  | .protoNode _ => 0
  | .extract => 0
end

/-- The protonode identifier of the recording monitor node
(`graphene_std::memo::monitor::IDENTIFIER`). -/
def MONITOR_IDENTIFIER : String := "graphene_std::memo::monitor::MonitorNode"

/-- The monitor node spliced in front of an input: it takes the original
input as its single input and forwards it (`call_argument` and
`skip_deduplication` are semantically inert here and omitted). -/
def monitorNode (input : NodeInput) : DocumentNode :=
  .mk [input] (.protoNode MONITOR_IDENTIFIER)

/-- The mutable state of `Instrumented::add`: the fresh-id supply
(`NodeId::new()` draws random collision-free 64-bit ids; modelled as a
counter started above every id the network references) and the two maps,
as association lists. -/
structure InstState where
  next_id : Nat
  protonodes_by_name : List (String × List (List (List NodeId)))
  protonodes_by_path : List (List NodeId × List (List NodeId))

/-- `self.protonodes_by_name.entry(key).or_default().push(v)`. -/
def pushByName (m : List (String × List (List (List NodeId)))) (key : String)
    (v : List (List NodeId)) : List (String × List (List (List NodeId))) :=
  match m with
  | [] => [(key, [v])]
  | (k, vs) :: rest =>
      if k = key then (k, vs ++ [v]) :: rest else (k, vs) :: pushByName rest key v

/-- `self.protonodes_by_path.insert(key, v)` (replacing semantics). -/
def insertByPath (m : List (List NodeId × List (List NodeId))) (key : List NodeId)
    (v : List (List NodeId)) : List (List NodeId × List (List NodeId)) :=
  match m with
  | [] => [(key, v)]
  | (k, w) :: rest =>
      if k = key then (key, v) :: rest else (k, w) :: insertByPath rest key v

/-- The inner `for input in &mut node.inputs` loop: replace each input by an
edge to a fresh monitor id, collect the `(old_input, monitor_id)` pairs and
the monitor paths (`path ++ [monitor_id]`) in input-declaration order. -/
def wrapInputs : List NodeInput → List NodeId → InstState →
    List NodeInput × List (NodeInput × NodeId) × List (List NodeId) × InstState
  | [], _, st => ([], [], [], st)
  | input :: rest, path, st =>
      let node_id := st.next_id
      let st := { st with next_id := st.next_id + 1 }
      let (rest', monitor_nodes, monitor_node_ids, st) := wrapInputs rest path st
      (NodeInput.node node_id 0 :: rest',
       (input, node_id) :: monitor_nodes,
       (path ++ [node_id]) :: monitor_node_ids,
       st)

/-- Build the node-table section holding the collected monitor nodes
(`network.nodes.insert(monitor_id, monitor_node)`). -/
def monitorsToNodes : List (NodeInput × NodeId) → NodeList
  | [] => .nil
  | (input, monitor_id) :: rest => .cons monitor_id (monitorNode input) (monitorsToNodes rest)

mutual
/-- The body of `Instrumented::add` for one node: recursively instrument a
nested subgraph network, wrap every input, and record the maps when the
node is protonode-implemented. -/
def instrumentNode (id : NodeId) (node : DocumentNode) (path : List NodeId)
    (st : InstState) : DocumentNode × List (NodeInput × NodeId) × InstState :=
  match node with
  | .mk inputs impl =>
    let (impl, st) :=
      match impl with
      | .network nested =>
          let (nested', st) := instrumentNetwork nested (path ++ [id]) st
          (DocumentNodeImplementation.network nested', st)
      | other => (other, st)
    let (inputs', monitor_nodes, monitor_node_ids, st) := wrapInputs inputs path st
    let st :=
      match impl with
      | .protoNode identifier =>
          { st with
            protonodes_by_name :=
              pushByName st.protonodes_by_name identifier monitor_node_ids,
            protonodes_by_path :=
              insertByPath st.protonodes_by_path (path ++ [id]) monitor_node_ids }
      | _ => st
    (.mk inputs' impl, monitor_nodes, st)

/-- The `for (id, node) in network.nodes.iter_mut()` loop. -/
def instrumentNodes (nodes : NodeList) (path : List NodeId) (st : InstState) :
    NodeList × List (NodeInput × NodeId) × InstState :=
  match nodes with
  | .nil => (.nil, [], st)
  | .cons id node tail =>
      let (node', mons1, st) := instrumentNode id node path st
      let (tail', mons2, st) := instrumentNodes tail path st
      (.cons id node' tail', mons1 ++ mons2, st)

/-- `Instrumented::add` on one network level: instrument every node, then
insert the collected monitor nodes into the same node table. -/
def instrumentNetwork (net : NodeNetwork) (path : List NodeId) (st : InstState) :
    NodeNetwork × InstState :=
  match net with
  | .mk nodes exports =>
      let (nodes', monitor_nodes, st) := instrumentNodes nodes path st
      (.mk (nodes'.append (monitorsToNodes monitor_nodes)) exports, st)
end

/-- The `Instrumented` state returned to tests. -/
structure Instrumented where
  protonodes_by_name : List (String × List (List (List NodeId)))
  protonodes_by_path : List (List NodeId × List (List NodeId))

/-- `Instrumented::new`: instrument the whole network starting from the
empty path.  The fresh-id supply starts above every id the network
references, reflecting that `NodeId::new()` never collides. -/
def Instrumented.new (network : NodeNetwork) : NodeNetwork × Instrumented :=
  let st0 : InstState := ⟨network.maxRef + 1, [], []⟩
  let (network', st) := instrumentNetwork network [] st0
  (network', ⟨st.protonodes_by_name, st.protonodes_by_path⟩)

/-! ## Evaluation semantics for instrumentation transparency -/

/-- Modelled from the spec: the execution engine that compiles and runs the
graph is an external collaborator (the interpreter and the node
implementations are not among these sources), so its per-operation meaning
is kept abstract: `denote` interprets a protonode identifier on its
evaluated inputs, `valueOf` the constant inputs, `otherInputOf` the
remaining input kinds.  The spec's recording-tap guarantee — a monitor
"forwards its single input unchanged as output" — enters the equivalence
theorem as the hypothesis `denote MONITOR_IDENTIFIER [v] = .ok v`. -/
structure EngineSemantics (V : Type) where
  denote : String → List V → Except String V
  valueOf : Nat → V
  otherInputOf : Nat → Except String V

mutual
/-- Evaluate one input in a network under an import environment.  Fuel is
consumed on every edge traversal; `none` means the fuel ran out. -/
def evalInput {V : Type} (sem : EngineSemantics V) :
    Nat → NodeNetwork → List V → NodeInput → Option (Except String V)
  | _, _, _, .value p _ => some (.ok (sem.valueOf p))
  | _, _, env, .network i =>
      some (if h : i < env.length then .ok (env.get ⟨i, h⟩)
            else .error "import index out of range")
  | _, _, _, .otherInput p => some (sem.otherInputOf p)
  | 0, _, _, .node _ _ => none
  | fuel + 1, net, env, .node nid oi => evalNode sem fuel net env nid oi
termination_by f _ _ _ => (f, 0, 0)

/-- Evaluate a list of inputs left to right; the first error wins. -/
def evalInputs {V : Type} (sem : EngineSemantics V) :
    Nat → NodeNetwork → List V → List NodeInput → Option (Except String (List V))
  | _, _, _, [] => some (.ok [])
  | fuel, net, env, i :: rest =>
      match evalInput sem fuel net env i with
      | none => none
      | some (.error e) => some (.error e)
      | some (.ok v) =>
          match evalInputs sem fuel net env rest with
          | none => none
          | some (.error e) => some (.error e)
          | some (.ok vs) => some (.ok (v :: vs))
termination_by f _ _ l => (f, 1, l.length)

/-- Evaluate one node: look it up, evaluate its inputs, then apply its
implementation (protonode denotation, or the selected export of a nested
network under the evaluated inputs as imports). -/
def evalNode {V : Type} (sem : EngineSemantics V) (fuel : Nat) (net : NodeNetwork)
    (env : List V) (nid : NodeId) (oi : Nat) : Option (Except String V) :=
  match net.find? nid with
  | none => some (.error "node not found")
  | some node =>
      match evalInputs sem fuel net env node.inputs with
      | none => none
      | some (.error e) => some (.error e)
      | some (.ok vs) =>
          match node.implementation with
          | .protoNode ident => some (sem.denote ident vs)
          | .extract => some (.error "extract is not executable")
          | .network nested => evalExport sem fuel nested vs oi
termination_by (fuel, 2, 0)

/-- Evaluate the network's `oi`-th export under an import environment: the
primary output observed by every downstream consumer. -/
def evalExport {V : Type} (sem : EngineSemantics V) (fuel : Nat) (net : NodeNetwork)
    (env : List V) (oi : Nat) : Option (Except String V) :=
  match net.exports.get? oi with
  | none => some (.error "export index out of range")
  | some i => evalInput sem fuel net env i
termination_by (fuel, 1, 0)
end

/-- Navigate a full structural path: descend through nested subgraph
networks and return the node the path designates. -/
def NodeNetwork.findPath? : NodeNetwork → List NodeId → Option DocumentNode
  | _, [] => none
  | net, [k] => net.find? k
  | net, k :: rest =>
      match net.find? k with
      | some node =>
          match node.implementation with
          | .network nested => nested.findPath? rest
          | _ => none
      | none => none

/-- Lookup in the by-path map (assoc list, first match). -/
def lookupByPath : List (List NodeId × List (List NodeId)) → List NodeId →
    Option (List (List NodeId))
  | [], _ => none
  | (k, v) :: rest, key => if k = key then some v else lookupByPath rest key

/-- The recorded occurrence entries of one protonode identifier. -/
def nameEntries : List (String × List (List (List NodeId))) → String →
    List (List (List NodeId))
  | [], _ => []
  | (k, vs) :: rest, key => if k = key then vs else nameEntries rest key

mutual
/-- Well-formed networks: distinct node keys at every level (the source
node table is a `HashMap`), recursively including nested subgraphs. -/
def NodeNetwork.WF : NodeNetwork → Prop
  | .mk nodes _ => nodes.keys.Nodup ∧ NodeList.WF nodes
def NodeList.WF : NodeList → Prop
  | .nil => True
  | .cons _ node tail => DocumentNode.WF node ∧ NodeList.WF tail
def DocumentNode.WF : DocumentNode → Prop
  | .mk _ impl => DocumentNodeImplementation.WF impl
def DocumentNodeImplementation.WF : DocumentNodeImplementation → Prop
  | .network nested => NodeNetwork.WF nested
  | .protoNode _ => True
  | .extract => True
end

mutual
/-- Implementation part of the rewiring relation: protonode and extract
implementations are kept verbatim, nested subgraph networks are themselves
rewired. -/
def RwImpl : DocumentNodeImplementation → DocumentNodeImplementation → Prop
  | .protoNode ident, impl' => impl' = .protoNode ident
  | .extract, impl' => impl' = .extract
  | .network nested, impl' => ∃ B' nested', impl' = .network nested' ∧ RwNet B' nested nested'

/-- The rewiring relation underlying instrumentation transparency: `net'`
is `net` with, at every level, every input of every node redirected through
a fresh forwarding monitor node.  The bound `B` dominates every original id
(keys and edge targets); ids absent from the original level and within the
bound stay absent. -/
def RwNet : Nat → NodeNetwork → NodeNetwork → Prop
  | B, .mk nodes exports, net' =>
      net'.exports = exports ∧
      (∀ i ∈ exports, NodeInput.ref i ≤ B) ∧
      (∀ k, k ≤ B → nodes.find? k = none → net'.find? k = none) ∧
      RwNodes B nodes net'

/-- Per-entry correspondence: every original node keeps its key, its inputs
become edges to the (order-matching) monitor ids, and each monitor id
resolves to a forwarding monitor holding the original input. -/
def RwNodes : Nat → NodeList → NodeNetwork → Prop
  | _, .nil, _ => True
  | B, .cons k (.mk inputs impl) tail, net' =>
      (k ≤ B) ∧
      (∀ i ∈ inputs, NodeInput.ref i ≤ B) ∧
      (∃ (ms : List NodeId) (impl' : DocumentNodeImplementation),
        net'.find? k = some (.mk (ms.map (fun m => NodeInput.node m 0)) impl') ∧
        ms.length = inputs.length ∧
        RwImpl impl impl' ∧
        ∀ j (hj : j < inputs.length) (hj2 : j < ms.length),
          net'.find? (ms.get ⟨j, hj2⟩) = some (monitorNode (inputs.get ⟨j, hj⟩))) ∧
      RwNodes B tail net'
end

/-- The generated monitor entries of one instrumentation stretch: strictly
increasing fresh ids, all inside the supply interval `[lo, hi)`. -/
def MonsBound (mons : List (NodeInput × NodeId)) (lo hi : Nat) : Prop :=
  (mons.map Prod.snd).Pairwise (· < ·) ∧ ∀ m ∈ mons.map Prod.snd, lo ≤ m ∧ m < hi

/-! ## Concrete fixtures for the instrumentation claims -/

/-- A tiny engine: the monitor identifier forwards its single input, every
other protonode sums two inputs; value and other inputs denote their
payloads. -/
def semW : EngineSemantics Nat :=
  ⟨fun ident vs =>
    if ident = MONITOR_IDENTIFIER then
      match vs with
      | [v] => Except.ok v
      | _ => Except.error "monitor arity"
    else
      match vs with
      | [a, b] => Except.ok (a + b)
      | _ => Except.error "arity",
   fun p => p,
   fun p => Except.ok p⟩

/-- One `add` protonode over two value inputs, exported. -/
def netC8 : NodeNetwork :=
  .mk (.cons 1 (.mk [.value 40 false, .value 53 false] (.protoNode "add")) .nil)
    [.node 1 0]

/-- A node whose implementation is a nested subgraph network (its single
node is an `add` protonode fed by the sole import), exported. -/
def netC9 : NodeNetwork :=
  .mk (.cons 1 (.mk [.value 7 false]
        (.network (.mk (.cons 2 (.mk [.network 0, .network 0] (.protoNode "add")) .nil)
          [.node 2 0]))) .nil)
    [.node 1 0]

/-- The recording-map contract of one instrumented (sub)network placed at
`path`: every protonode-implemented node reachable at structural path `s`
has a by-path entry at `path ++ s` listing its taps' identities in
input-declaration order (the taps being exactly the targets of the node's
rewired input edges), and that tap list is recorded under the protonode's
identifier in the by-name map. -/
def TapRecord (bp : List (List NodeId × List (List NodeId)))
    (bn : List (String × List (List (List NodeId)))) (path : List NodeId)
    (net : NodeNetwork) (net' : NodeNetwork) : Prop :=
  ∀ s node ident, net.findPath? s = some node →
    node.implementation = .protoNode ident →
    ∃ ms : List NodeId,
      ms.length = node.inputs.length ∧
      lookupByPath bp (path ++ s) = some (ms.map (fun m => (path ++ s.dropLast) ++ [m])) ∧
      net'.findPath? s =
        some (.mk (ms.map (fun m => NodeInput.node m 0)) (.protoNode ident)) ∧
      (ms.map (fun m => (path ++ s.dropLast) ++ [m])) ∈ nameEntries bn ident

/-! ## Theorems: the compiled-program cache check -/

theorem update_node_graph_sends (ex : NodeGraphExecutor) (doc : DocumentMessageHandler)
    (nti : Option NodeId) (ig : Bool)
    (h : doc.network_interface.network_hash ≠ ex.node_graph_hash ∨
        ex.previous_node_to_inspect ≠ nti ∨ ig = true) :
    update_node_graph ex doc nti ig =
      ({ ex with
          previous_node_to_inspect := nti,
          node_graph_hash := doc.network_interface.network_hash },
       [.graphUpdate doc.network_interface.document_network nti]) := by
  simp only [update_node_graph]
  rw [if_pos h]

theorem update_node_graph_skips (ex : NodeGraphExecutor) (doc : DocumentMessageHandler)
    (nti : Option NodeId) (ig : Bool)
    (h : ¬(doc.network_interface.network_hash ≠ ex.node_graph_hash ∨
        ex.previous_node_to_inspect ≠ nti ∨ ig = true)) :
    update_node_graph ex doc nti ig = (ex, []) := by
  simp only [update_node_graph]
  rw [if_neg h]

/-- C3: `update_node_graph` sends a `GraphUpdate` iff the document's network
hash differs from the stored one, the inspect target differs from the stored
one, or `ignore_hash` is set; when it sends it adopts the new hash and
target, so an immediately repeated call with unchanged hash and target and
`ignore_hash = false` sends no second `GraphUpdate`; and changing the
inspect target from `none` to `some x` under an unchanged hash triggers
exactly one `GraphUpdate` across the two calls. -/
theorem update_node_graph_cache_contract (ex : NodeGraphExecutor)
    (doc : DocumentMessageHandler) (node_to_inspect : Option NodeId) (ignore_hash : Bool) :
    ((update_node_graph ex doc node_to_inspect ignore_hash).2 ≠ [] ↔
      (doc.network_interface.network_hash ≠ ex.node_graph_hash ∨
       ex.previous_node_to_inspect ≠ node_to_inspect ∨ ignore_hash = true)) ∧
    ((update_node_graph ex doc node_to_inspect ignore_hash).2 ≠ [] →
      (update_node_graph ex doc node_to_inspect ignore_hash).1.node_graph_hash =
          doc.network_interface.network_hash ∧
      (update_node_graph ex doc node_to_inspect ignore_hash).1.previous_node_to_inspect =
          node_to_inspect) ∧
    ((update_node_graph (update_node_graph ex doc node_to_inspect ignore_hash).1 doc
        node_to_inspect false).2 = []) ∧
    (ex.node_graph_hash = doc.network_interface.network_hash →
      ex.previous_node_to_inspect = none →
      ∀ x : NodeId,
        (update_node_graph ex doc (some x) false).2 =
          [.graphUpdate doc.network_interface.document_network (some x)] ∧
        (update_node_graph (update_node_graph ex doc (some x) false).1 doc (some x) false).2
          = []) := by
  have scenario : ex.previous_node_to_inspect = none → ∀ x : NodeId,
      (update_node_graph ex doc (some x) false).2 =
        [.graphUpdate doc.network_interface.document_network (some x)] ∧
      (update_node_graph (update_node_graph ex doc (some x) false).1 doc (some x) false).2
        = [] := by
    intro h2 x
    rw [update_node_graph_sends ex doc (some x) false (by simp [h2])]
    exact ⟨rfl, congrArg Prod.snd (update_node_graph_skips _ doc (some x) false (by simp))⟩
  by_cases h : doc.network_interface.network_hash ≠ ex.node_graph_hash ∨
      ex.previous_node_to_inspect ≠ node_to_inspect ∨ ignore_hash = true
  · rw [update_node_graph_sends ex doc node_to_inspect ignore_hash h]
    refine ⟨by simp [h], fun _ => ⟨rfl, rfl⟩, ?_, fun _ h2 => scenario h2⟩
    exact congrArg Prod.snd (update_node_graph_skips _ doc node_to_inspect false (by simp))
  · rw [update_node_graph_skips ex doc node_to_inspect ignore_hash h]
    push_neg at h
    obtain ⟨ha, hb, hc⟩ := h
    refine ⟨by simp [ha, hb, hc], by simp, ?_, fun _ h2 => scenario h2⟩
    exact congrArg Prod.snd
      (update_node_graph_skips ex doc node_to_inspect false (by simp [ha, hb, hc]))

/-! ## Theorems: the result router's error paths -/

/-- C5: a `CompilationResponse` carrying an error together with a partial
type-resolution delta enqueues an `UpdateTypes` message carrying exactly
that delta and the graph error list, and surfaces the error as a returned
message string (an `Err` return, not a panic). -/
theorem compilation_error_applies_incomplete_delta (enc : ImageEncoder) (s : PollState)
    (cr : CompilationResponse) (incomplete_delta : ResolvedDocumentNodeTypesDelta)
    (e : String) (h : cr.result = .error (incomplete_delta, e)) :
    (pollStep enc s (.compilationResponse cr)).1.responses =
      s.responses ++ [.nodeGraphUpdateTypes incomplete_delta cr.node_graph_errors,
        .nodeGraphSendGraph] ∧
    (pollStep enc s (.compilationResponse cr)).2 =
      .error ("Node graph evaluation failed:\n" ++ e) := by
  simp [pollStep, h]

theorem compilation_error_applies_incomplete_delta_witness :
    (CompilationResponse.mk (.error (⟨7⟩, "type error")) ⟨3⟩).result
      = .error (⟨7⟩, "type error") ∧
    (pollStep ⟨fun _ _ => .error "", fun _ => .error ""⟩
        ⟨NodeGraphExecutor.init, ⟨⟨0, ⟨0⟩, [], []⟩⟩, []⟩
        (.compilationResponse
          (CompilationResponse.mk (.error (⟨7⟩, "type error")) ⟨3⟩))).1.responses =
      [] ++ [.nodeGraphUpdateTypes ⟨7⟩ ⟨3⟩, .nodeGraphSendGraph] :=
  ⟨rfl, (compilation_error_applies_incomplete_delta _ _ _ ⟨7⟩ "type error" rfl).1⟩

/-- C6: a failed execution result replaces the document's click-target and
vector-modify tables with empty maps and returns an error string containing
the engine's diagnostic, as an `Err` return rather than a panic. -/
theorem execution_error_clears_spatial_indices (enc : ImageEncoder) (s : PollState)
    (er : ExecutionResponse) (e : String) (h : er.result = .error e) :
    (pollStep enc s (.executionResponse er)).1.doc.network_interface.click_targets = [] ∧
    (pollStep enc s (.executionResponse er)).1.doc.network_interface.vector_modify = [] ∧
    (pollStep enc s (.executionResponse er)).2 =
      .error ("Node graph evaluation failed:\n" ++ e) := by
  simp [pollStep, h, update_click_targets, update_vector_modify]

theorem execution_error_clears_spatial_indices_witness :
    (ExecutionResponse.mk 0 (.error "division by zero") [] [] none).result
      = .error "division by zero" ∧
    ((pollStep ⟨fun _ _ => .error "", fun _ => .error ""⟩
        ⟨NodeGraphExecutor.init, ⟨⟨0, ⟨0⟩, [(1, ⟨5⟩)], [(2, ⟨6⟩)]⟩⟩, []⟩
        (.executionResponse
          (ExecutionResponse.mk 0
            (.error "division by zero") [] [] none))).1).doc.network_interface.click_targets
      = [] :=
  ⟨rfl, (execution_error_clears_spatial_indices _ _ _ "division by zero" rfl).1⟩

theorem update_node_graph_cache_contract_witness :
    NodeGraphExecutor.init.node_graph_hash =
      (DocumentMessageHandler.mk ⟨0, ⟨9⟩, [], []⟩).network_interface.network_hash ∧
    (update_node_graph NodeGraphExecutor.init
        (DocumentMessageHandler.mk ⟨0, ⟨9⟩, [], []⟩) (some 5) false).2 =
      [.graphUpdate ⟨9⟩ (some 5)] :=
  ⟨rfl, ((update_node_graph_cache_contract NodeGraphExecutor.init
    (DocumentMessageHandler.mk ⟨0, ⟨9⟩, [], []⟩) (some 5) false).2.2.2 rfl rfl 5).1⟩

/-! ## Theorems: export handling -/

/-- C7: requesting an Ascii export against an execution output whose render
data is SVG markup returns the specific format-mismatch error, and the poll
queue gains no save/export/download message for it: only the unconditional
overlay redraw and the messages already carried inside the response are
appended. -/
theorem ascii_export_of_svg_output_aborts (enc : ImageEncoder) (svg : String)
    (image_data : List ImageData) (md : RenderMetadata) (export_config : ExportConfig)
    (hft : export_config.file_type = .ascii) (responses : List Message) :
    process_export enc (.renderOutput ⟨.svg svg image_data, md⟩) export_config responses =
      .error "ASCII export requires raster output. Please ensure your document contains raster content or use PNG/JPG export." ∧
    (∀ (s : PollState) (er : ExecutionResponse) (ctx : ExecutionContext)
      (rest : List (Nat × ExecutionContext)),
      s.ex.futures = (er.execution_id, ctx) :: rest →
      ctx.export_config = some export_config →
      er.result = .ok (.renderOutput ⟨.svg svg image_data, md⟩) →
      (pollStep enc s (.executionResponse er)).1.responses =
        s.responses ++ [.overlaysDraw] ++ er.responses ∧
      (pollStep enc s (.executionResponse er)).2 =
        .error "ASCII export requires raster output. Please ensure your document contains raster content or use PNG/JPG export.") := by
  have h1 : process_export enc (.renderOutput ⟨.svg svg image_data, md⟩)
      export_config responses =
      .error "ASCII export requires raster output. Please ensure your document contains raster content or use PNG/JPG export." := by
    simp [process_export, hft]
  refine ⟨h1, fun s er ctx rest hfut hctx hres => ?_⟩
  have h1' : ∀ rs : List Message, process_export enc (.renderOutput ⟨.svg svg image_data, md⟩)
      export_config rs =
      .error "ASCII export requires raster output. Please ensure your document contains raster content or use PNG/JPG export." :=
    fun rs => by simp [process_export, hft]
  constructor <;>
    simp [pollStep, dispatchToHandler, hres, hfut, retireStale, hctx, h1', Except.map]

theorem ascii_export_of_svg_output_aborts_witness :
    (ExportConfig.mk .ascii "art" 4 4 1 false none 1).file_type = .ascii ∧
    process_export ⟨fun _ _ => .error "", fun _ => .error ""⟩
        (.renderOutput ⟨.svg "<svg></svg>" [], ⟨⟨0⟩, ⟨0⟩, none, [], ⟨0⟩⟩⟩)
        (ExportConfig.mk .ascii "art" 4 4 1 false none 1) [] =
      .error "ASCII export requires raster output. Please ensure your document contains raster content or use PNG/JPG export." :=
  ⟨rfl, (ascii_export_of_svg_output_aborts ⟨fun _ _ => .error "", fun _ => .error ""⟩
    "<svg></svg>" [] ⟨⟨0⟩, ⟨0⟩, none, [], ⟨0⟩⟩
    (ExportConfig.mk .ascii "art" 4 4 1 false none 1) rfl []).1⟩

/-- C10: every Ascii-kind export that succeeds delivers its output through a
single `TriggerSaveFile` whose file name ends in `.svg` and whose content is
the SVG document produced by `image_to_ascii_svg` (prolog-to-`</svg>`); it
never produces a plain-text file. -/
theorem ascii_export_success_is_svg_document (enc : ImageEncoder)
    (node_graph_output : TaggedValue) (export_config : ExportConfig)
    (responses responses' : List Message)
    (hft : export_config.file_type = .ascii)
    (h : process_export enc node_graph_output export_config responses = .ok responses') :
    ∃ name img,
      responses' = responses ++ [.frontendTriggerSaveFile name (image_to_ascii_svg img).1] ∧
      (∃ base, name = base ++ ".svg") ∧
      (image_to_ascii_svg img).1 =
        xmlProlog ++ image_to_ascii_svg_inner img ++ "</svg>" := by
  match node_graph_output with
  | .otherValue p => simp [process_export, hft] at h
  | .renderOutput ro =>
    match hd : ro.data with
    | .svg svg image_data => simp [process_export, hft, hd] at h
    | .canvasFrame f => simp [process_export, hft, hd] at h
    | .texture p => simp [process_export, hft, hd] at h
    | .otherOutput p => simp [process_export, hft, hd] at h
    | .buffer data width height =>
      rw [process_export] at h
      simp only [hft, hd] at h
      match hr : RgbaImage.from_raw width height data with
      | none => rw [hr] at h; simp at h
      | some image =>
        rw [hr] at h
        simp only [ne_eq, reduceCtorEq, not_false_eq_true, reduceIte, Except.ok.injEq] at h
        refine ⟨_, image, h.symm, ?_, rfl⟩
        exact ⟨_, by rw [String.append_assoc]; rfl⟩

theorem ascii_export_success_is_svg_document_witness :
    (ExportConfig.mk .ascii "art" 4 4 1 false none 1).file_type = .ascii ∧
    process_export ⟨fun _ _ => .error "no encoder", fun _ => .error "no encoder"⟩
        (.renderOutput ⟨.buffer [0, 0, 0, 0] 1 1, ⟨⟨0⟩, ⟨0⟩, none, [], ⟨0⟩⟩⟩)
        (ExportConfig.mk .ascii "art" 4 4 1 false none 1) [] =
      .ok [.frontendTriggerSaveFile ("art" ++ "." ++ "svg")
            (image_to_ascii_svg ⟨1, 1, [0, 0, 0, 0]⟩).1] ∧
    (∃ name img,
      [Message.frontendTriggerSaveFile ("art" ++ "." ++ "svg")
          (image_to_ascii_svg ⟨1, 1, [0, 0, 0, 0]⟩).1] =
        [] ++ [.frontendTriggerSaveFile name (image_to_ascii_svg img).1] ∧
      (∃ base, name = base ++ ".svg") ∧
      (image_to_ascii_svg img).1 = xmlProlog ++ image_to_ascii_svg_inner img ++ "</svg>") :=
  ⟨rfl, rfl,
    ascii_export_success_is_svg_document
      ⟨fun _ _ => .error "no encoder", fun _ => .error "no encoder"⟩
      (.renderOutput ⟨.buffer [0, 0, 0, 0] 1 1, ⟨⟨0⟩, ⟨0⟩, none, [], ⟨0⟩⟩⟩)
      (ExportConfig.mk .ascii "art" 4 4 1 false none 1) []
      [.frontendTriggerSaveFile ("art" ++ "." ++ "svg")
        (image_to_ascii_svg ⟨1, 1, [0, 0, 0, 0]⟩).1] rfl rfl⟩

/-! ## Theorems: the pending-request ledger -/

/-- The retirement loop stops at the first entry whose id is not below the
result id; with a sorted ledger containing the id, it exposes exactly the
matching entry, followed by the strictly fresher ones. -/
theorem retireStale_mem (futures : List (Nat × ExecutionContext)) (id : Nat)
    (hsorted : (futures.map Prod.fst).Pairwise (· < ·))
    (hmem : id ∈ futures.map Prod.fst) :
    ∃ ctx rest, retireStale futures id = (id, ctx) :: rest ∧ ∀ p ∈ rest, id < p.1 := by
  induction futures with
  | nil => simp at hmem
  | cons p futures ih =>
    obtain ⟨fid, ctx⟩ := p
    simp only [List.map_cons, List.pairwise_cons] at hsorted
    rcases List.mem_cons.mp hmem with heq | hmem'
    · subst heq
      refine ⟨ctx, futures, ?_, ?_⟩
      · simp [retireStale]
      · intro q hq
        exact hsorted.1 q.1 (List.mem_map_of_mem Prod.fst hq)
    · have hlt : fid < id := hsorted.1 id hmem'
      obtain ⟨ctx', rest', hr, hgt⟩ := ih hsorted.2 hmem'
      exact ⟨ctx', rest', by simp [retireStale, hlt, hr], hgt⟩

/-- When every pending id is strictly above the result id, the retirement
loop leaves the ledger unchanged. -/
theorem retireStale_of_all_gt (futures : List (Nat × ExecutionContext)) (id : Nat)
    (h : ∀ p ∈ futures, id < p.1) : retireStale futures id = futures := by
  cases futures with
  | nil => rfl
  | cons p rest =>
    obtain ⟨fid, ctx⟩ := p
    have : ¬ fid < id := by
      have := h (fid, ctx) (List.mem_cons_self _ _)
      omega
    simp [retireStale, this]

/-- The normal-render handler only touches `last_svg_canvas`: the ledger and
the id counter survive it. -/
theorem process_node_graph_output_preserves (ex : NodeGraphExecutor)
    (out : TaggedValue) (resp : List Message) (ex' : NodeGraphExecutor)
    (resp' : List Message) (h : process_node_graph_output ex out resp = .ok (ex', resp')) :
    ex'.futures = ex.futures ∧ ex'.current_execution_id = ex.current_execution_id := by
  match out with
  | .otherValue p => simp [process_node_graph_output] at h
  | .renderOutput ro =>
    match hd : ro.data with
    | .svg svg idata =>
        simp only [process_node_graph_output, hd, Except.ok.injEq, Prod.mk.injEq] at h
        obtain ⟨h1, _⟩ := h
        subst h1
        exact ⟨rfl, rfl⟩
    | .canvasFrame frame =>
        simp only [process_node_graph_output, hd] at h
        by_cases hc : ex.last_svg_canvas = some frame <;>
          simp only [hc, reduceIte, Except.ok.injEq, Prod.mk.injEq] at h <;>
          obtain ⟨h1, _⟩ := h <;> subst h1 <;> exact ⟨rfl, rfl⟩
    | .texture p =>
        simp only [process_node_graph_output, hd, Except.ok.injEq, Prod.mk.injEq] at h
        obtain ⟨h1, _⟩ := h
        subst h1
        exact ⟨rfl, rfl⟩
    | .buffer data w hh => simp [process_node_graph_output, hd] at h
    | .otherOutput p => simp [process_node_graph_output, hd] at h

/-- No purpose handler touches the ledger or the id counter. -/
theorem dispatchToHandler_preserves (enc : ImageEncoder) (ex : NodeGraphExecutor)
    (out : TaggedValue) (ctx : ExecutionContext) (resp : List Message)
    (ex' : NodeGraphExecutor) (resp' : List Message)
    (h : dispatchToHandler enc ex out ctx resp = .ok (ex', resp')) :
    ex'.futures = ex.futures ∧ ex'.current_execution_id = ex.current_execution_id := by
  match hec : ctx.export_config with
  | some ec =>
      simp only [dispatchToHandler, hec] at h
      cases hpe : process_export enc out ec resp <;> rw [hpe] at h <;>
        simp only [Except.map, Except.ok.injEq, Prod.mk.injEq, reduceCtorEq] at h
      obtain ⟨h1, _⟩ := h
      subst h1
      exact ⟨rfl, rfl⟩
  | none =>
      simp only [dispatchToHandler, hec] at h
      by_cases hey : ctx.render_config.for_eyedropper = true
      · rw [if_pos hey] at h
        cases hpe : process_eyedropper_preview out resp <;> rw [hpe] at h <;>
          simp only [Except.map, Except.ok.injEq, Prod.mk.injEq, reduceCtorEq] at h
        obtain ⟨h1, _⟩ := h
        subst h1
        exact ⟨rfl, rfl⟩
      · rw [if_neg hey] at h
        exact process_node_graph_output_preserves _ _ _ _ _ h

/-- A matched execution result (the retirement loop exposes exactly its id at
the ledger front) can never reach a panic: it pops its entry, keeps the id
counter, and hands the output to its purpose handler. -/
theorem pollStep_exec_ok (enc : ImageEncoder) (s : PollState) (er : ExecutionResponse)
    (v : TaggedValue) (ctx : ExecutionContext) (rest : List (Nat × ExecutionContext))
    (hok : er.result = .ok v)
    (hret : retireStale s.ex.futures er.execution_id = (er.execution_id, ctx) :: rest) :
    (∀ m, (pollStep enc s (.executionResponse er)).2 ≠ .fatal m) ∧
    (pollStep enc s (.executionResponse er)).1.ex.futures = rest ∧
    (pollStep enc s (.executionResponse er)).1.ex.current_execution_id =
      s.ex.current_execution_id := by
  have hne : ¬(er.execution_id ≠ er.execution_id) := fun hx => hx rfl
  simp only [pollStep, hok, hret, hne, reduceIte, ne_eq, not_true_eq_false,
    not_false_eq_true]
  refine ⟨?_, ?_, ?_⟩
  · intro m
    split
    · simp
    · simp
  · split
    · rfl
    · next ex2 resp2 heq =>
        have := dispatchToHandler_preserves _ _ _ _ _ _ _ heq
        simpa using this.1
  · split
    · rfl
    · next ex2 resp2 heq =>
        have := dispatchToHandler_preserves _ _ _ _ _ _ _ heq
        simpa using this.2

/-- C1 (amended by `stale_result_discarded_claim_counterexample`): once a
result for `ik` has been processed, the ledger entries of every `ij` with
`j < k` have been retired, so a result for such an `ij` that is processed
afterwards is indeed never applied — no render, export, or preview handler
runs for it — but the router reacts with the fatal
`InvalidGenerationId`/id-mismatch panic (process termination) rather than a
silent discard; results for `ij` with `j > k`, whose entries are still
pending, remain eligible: their entry is found and processing them cannot
panic. -/
theorem stale_result_panics_fresh_results_remain_eligible
    (enc : ImageEncoder) (s : PollState) (er : ExecutionResponse) (v : TaggedValue)
    (hok : er.result = .ok v) :
    ((∀ p ∈ s.ex.futures, er.execution_id < p.1) →
      (∃ m, (pollStep enc s (.executionResponse er)).2 = .fatal m) ∧
      (pollStep enc s (.executionResponse er)).1.responses =
        s.responses ++ [.overlaysDraw] ++ er.responses) ∧
    ((s.ex.futures.map Prod.fst).Pairwise (· < ·) →
      er.execution_id ∈ s.ex.futures.map Prod.fst →
      ∀ m, (pollStep enc s (.executionResponse er)).2 ≠ .fatal m) := by
  constructor
  · intro hstale
    match hf : s.ex.futures with
    | [] =>
        refine ⟨⟨"InvalidGenerationId", ?_⟩, ?_⟩ <;>
          simp [pollStep, hok, hf, retireStale]
    | (fid, ctx) :: rest =>
        have hgt := hstale (fid, ctx) (hf ▸ List.mem_cons_self _ _)
        have hnlt : ¬ fid < er.execution_id := by omega
        have hne : fid ≠ er.execution_id := by omega
        refine ⟨⟨"Missmatch in execution id", ?_⟩, ?_⟩ <;>
          simp [pollStep, hok, hf, retireStale, hnlt, hne]
  · intro hsorted hmem m
    obtain ⟨ctx, rest, hret, _⟩ := retireStale_mem _ _ hsorted hmem
    exact (pollStep_exec_ok enc s er v ctx rest hok hret).1 m

theorem stale_result_panics_witness :
    (erOkW 0).result = .ok svgOutW ∧
    (∃ m, (pollStep encW
        ⟨{ NodeGraphExecutor.init with current_execution_id := 2 }, docW, []⟩
        (.executionResponse (erOkW 0))).2 = .fatal m) :=
  ⟨rfl, ((stale_result_panics_fresh_results_remain_eligible encW
      ⟨{ NodeGraphExecutor.init with current_execution_id := 2 }, docW, []⟩
      (erOkW 0) svgOutW rfl).1 (by simp [NodeGraphExecutor.init])).1⟩

/-- C1 counterexample, on the spec's own concrete scenario (ids 0 < 1
standing for 5 < 6): after the result for id 1 is applied, processing the
late result for id 0 does not leave the process running — the poll panics
with `InvalidGenerationId`, falsifying "the process does not terminate". -/
theorem stale_result_discarded_claim_counterexample :
    (runTrace encW s0W traceStaleW).2 = some "InvalidGenerationId" := by rfl

/-- C4 (amended by `failed_result_entry_not_destroyed_counterexample`): a
successful result destroys its matching ledger entry while it is processed;
a failed result leaves the whole ledger untouched — its entry is destroyed
only later, by the staleness retirement of a fresher result. -/
theorem ledger_entry_destroyed_on_success_retained_on_failure
    (enc : ImageEncoder) (s : PollState) (er : ExecutionResponse)
    (hsorted : (s.ex.futures.map Prod.fst).Pairwise (· < ·)) :
    (∀ v, er.result = .ok v → er.execution_id ∈ s.ex.futures.map Prod.fst →
      er.execution_id ∉
        ((pollStep enc s (.executionResponse er)).1.ex.futures.map Prod.fst)) ∧
    (∀ e, er.result = .error e →
      (pollStep enc s (.executionResponse er)).1.ex.futures = s.ex.futures) := by
  constructor
  · intro v hok hmem
    obtain ⟨ctx, rest, hret, hgt⟩ := retireStale_mem _ _ hsorted hmem
    have hfut := (pollStep_exec_ok enc s er v ctx rest hok hret).2.1
    rw [hfut]
    intro hmem'
    obtain ⟨p, hp, hpe⟩ := List.mem_map.mp hmem'
    have := hgt p hp
    omega
  · intro e herr
    simp [pollStep, herr]

theorem ledger_entry_destroyed_on_success_witness :
    ((([(0, ctxW)] : List (Nat × ExecutionContext)).map Prod.fst).Pairwise (· < ·)) ∧
    (0 : Nat) ∉ ((pollStep encW
        ⟨{ NodeGraphExecutor.init with current_execution_id := 1, futures := [(0, ctxW)] },
          docW, []⟩
        (.executionResponse (erOkW 0))).1.ex.futures.map Prod.fst) :=
  ⟨by simp,
    (ledger_entry_destroyed_on_success_retained_on_failure encW
      ⟨{ NodeGraphExecutor.init with current_execution_id := 1, futures := [(0, ctxW)] },
        docW, []⟩
      (erOkW 0) (by simp)).1 svgOutW rfl (by simp [erOkW])⟩

/-- C4 counterexample: a failed result for id 0, with the ledger holding
exactly the entry for id 0, leaves that entry in the queue — it is not
destroyed during the processing of that result. -/
theorem failed_result_entry_not_destroyed_counterexample :
    (pollStep encW
        ⟨{ NodeGraphExecutor.init with current_execution_id := 1, futures := [(0, ctxW)] },
          docW, []⟩
        (.executionResponse erFailW)).1.ex.futures = [(0, ctxW)] := by rfl

/-- Retirement on a consecutive range of pending ids: popping everything
below `q` leaves exactly the range from `q` up. -/
theorem retireStale_range (futures : List (Nat × ExecutionContext)) (lo n q : Nat)
    (hids : futures.map Prod.fst = List.range' lo n)
    (hlo : lo ≤ q) (hq : q ≤ lo + n) :
    (retireStale futures q).map Prod.fst = List.range' q (lo + n - q) := by
  induction futures generalizing lo n with
  | nil =>
    simp only [List.map_nil] at hids
    cases n with
    | zero =>
        have : q = lo := by omega
        subst this
        simp [retireStale]
    | succ m => simp [List.range'] at hids
  | cons p rest ih =>
    obtain ⟨fid, ctx⟩ := p
    cases n with
    | zero => simp [List.range'] at hids
    | succ m =>
      simp only [List.map_cons, List.range'] at hids
      obtain ⟨hfid, hrest⟩ := List.cons_eq_cons.mp hids
      subst hfid
      by_cases hflt : fid < q
      · have hres := ih (fid + 1) m hrest (by omega) (by omega)
        have heq : fid + 1 + m - q = fid + (m + 1) - q := by omega
        rw [heq] at hres
        simpa [retireStale, hflt] using hres
      · have : q = fid := by omega
        subst this
        simp [retireStale, hflt, List.range', hrest]

/-- Dispatching preserves ledger coherence: the fresh id extends the
consecutive range at the top. -/
theorem submitExecution_coherent (ex : NodeGraphExecutor) (rc : RenderConfig)
    (ec : Option ExportConfig) (did : DocumentId) (last : Option Nat)
    (hinv : LedgerCoherent ex last) :
    LedgerCoherent (submitExecution ex rc ec did).1 last ∧
    (submitExecution ex rc ec did).1.current_execution_id =
      ex.current_execution_id + 1 := by
  obtain ⟨lo, h1, h2, h3⟩ := hinv
  refine ⟨⟨lo, ?_, h2, ?_⟩, by simp [submitExecution, queue_execution]⟩
  · simp only [submitExecution, queue_execution]
    omega
  · simp only [submitExecution, queue_execution, List.map_append, h3, List.map_cons,
      List.map_nil]
    have hconcat := @List.range'_concat 1 lo (ex.current_execution_id - lo)
    have hc1 : lo + 1 * (ex.current_execution_id - lo) = ex.current_execution_id := by
      omega
    have hc2 : ex.current_execution_id + 1 - lo = (ex.current_execution_id - lo) + 1 := by
      omega
    rw [hc1] at hconcat
    rw [hc2, hconcat]

/-- A failed execution result never panics and leaves the executor state
(ledger included) unchanged; coherence carries over to the fresher
last-processed id. -/
theorem pollStep_exec_err_coherent (enc : ImageEncoder) (s : PollState)
    (er : ExecutionResponse) (e : String) (last : Option Nat)
    (herr : er.result = .error e)
    (hinv : LedgerCoherent s.ex last)
    (hlast : ∀ r, last = some r → r < er.execution_id) :
    (∀ m, (pollStep enc s (.executionResponse er)).2 ≠ .fatal m) ∧
    (pollStep enc s (.executionResponse er)).1.ex = s.ex ∧
    LedgerCoherent (pollStep enc s (.executionResponse er)).1.ex
      (some er.execution_id) := by
  have hex : (pollStep enc s (.executionResponse er)).1.ex = s.ex := by
    simp [pollStep, herr]
  refine ⟨by simp [pollStep, herr], hex, ?_⟩
  rw [hex]
  obtain ⟨lo, h1, h2, h3⟩ := hinv
  refine ⟨lo, h1, ?_, h3⟩
  cases last with
  | none => simp only [lastBound] at h2 ⊢; omega
  | some r =>
      have := hlast r rfl
      simp only [lastBound] at h2 ⊢
      omega

/-- C2's inductive core for one successful result: under coherence, with a
fresher, previously dispatched id, the retirement loop exposes exactly the
matching entry, so the step cannot panic and coherence is re-established. -/
theorem pollStep_exec_ok_coherent (enc : ImageEncoder) (s : PollState)
    (er : ExecutionResponse) (v : TaggedValue) (last : Option Nat)
    (hok : er.result = .ok v)
    (hinv : LedgerCoherent s.ex last)
    (hlast : ∀ r, last = some r → r < er.execution_id)
    (hn : er.execution_id < s.ex.current_execution_id) :
    (∀ m, (pollStep enc s (.executionResponse er)).2 ≠ .fatal m) ∧
    (pollStep enc s (.executionResponse er)).1.ex.current_execution_id =
      s.ex.current_execution_id ∧
    LedgerCoherent (pollStep enc s (.executionResponse er)).1.ex
      (some er.execution_id) := by
  obtain ⟨lo, h1, h2, h3⟩ := hinv
  have hloq : lo ≤ er.execution_id := by
    cases last with
    | none => simp only [lastBound] at h2; omega
    | some r =>
        have := hlast r rfl
        simp only [lastBound] at h2
        omega
  have hrange := retireStale_range s.ex.futures lo (s.ex.current_execution_id - lo)
    er.execution_id h3 hloq (by omega)
  have hsz : lo + (s.ex.current_execution_id - lo) - er.execution_id =
      (s.ex.current_execution_id - er.execution_id - 1) + 1 := by omega
  rw [hsz] at hrange
  simp only [List.range'] at hrange
  match hr : retireStale s.ex.futures er.execution_id with
  | [] => rw [hr] at hrange; simp at hrange
  | (fid, ctx) :: rest =>
    rw [hr] at hrange
    simp only [List.map_cons] at hrange
    obtain ⟨hfid, hrest⟩ := List.cons_eq_cons.mp hrange
    subst hfid
    have hstep := pollStep_exec_ok enc s er v ctx rest hok hr
    refine ⟨hstep.1, hstep.2.2, er.execution_id + 1, ?_, by simp [lastBound], ?_⟩
    · rw [hstep.2.2]
      omega
    · have heq : s.ex.current_execution_id - er.execution_id - 1 =
          s.ex.current_execution_id - (er.execution_id + 1) := by omega
      rw [hstep.2.1, hstep.2.2, hrest, heq]

/-- A compilation response never panics and does not touch the executor. -/
theorem pollStep_comp_preserves (enc : ImageEncoder) (s : PollState)
    (cr : CompilationResponse) :
    (∀ m, (pollStep enc s (.compilationResponse cr)).2 ≠ .fatal m) ∧
    (pollStep enc s (.compilationResponse cr)).1.ex = s.ex := by
  cases hc : cr.result with
  | error p => obtain ⟨d, e⟩ := p; simp [pollStep, hc]
  | ok d => simp [pollStep, hc]

/-- The trace induction behind C2: along any admissible interleaving, a
coherent executor never reaches either panic. -/
theorem runTrace_no_panic (enc : ImageEncoder) (trace : List ExecutorEvent) :
    ∀ (s : PollState) (last : Option Nat),
      Admissible s.ex.current_execution_id last trace →
      LedgerCoherent s.ex last →
      (runTrace enc s trace).2 = none := by
  induction trace with
  | nil => intro s last _ _; rfl
  | cons e rest ih =>
    intro s last hadm hinv
    cases e with
    | dispatch rc ec did =>
        cases hadm with
        | dispatch _ _ _ _ _ _ hrest =>
          simp only [runTrace]
          obtain ⟨hinv', hcur⟩ := submitExecution_coherent s.ex rc ec did last hinv
          exact ih _ last (by rw [hcur]; exact hrest) hinv'
    | deliver r =>
        cases r with
        | compilationResponse cr =>
            cases hadm with
            | deliverCompilation _ _ _ _ hrest =>
              obtain ⟨hnf, hex⟩ := pollStep_comp_preserves enc s cr
              rcases hout : (pollStep enc s (.compilationResponse cr)).2 with _ | m | m
              · simp only [runTrace, hout]
                exact ih _ last (by rw [hex]; exact hrest) (by rw [hex]; exact hinv)
              · simp only [runTrace, hout]
                exact ih _ last (by rw [hex]; exact hrest) (by rw [hex]; exact hinv)
              · exact absurd hout (hnf m)
        | executionResponse er =>
            cases hadm with
            | deliverExecution _ _ _ _ hlast hn hrest =>
              cases hres : er.result with
              | error e =>
                  obtain ⟨hnf, hex, hinv'⟩ :=
                    pollStep_exec_err_coherent enc s er e last hres hinv hlast
                  rcases hout : (pollStep enc s (.executionResponse er)).2 with _ | m | m
                  · simp only [runTrace, hout]
                    exact ih _ (some er.execution_id)
                      (by rw [hex]; exact hrest) hinv'
                  · simp only [runTrace, hout]
                    exact ih _ (some er.execution_id)
                      (by rw [hex]; exact hrest) hinv'
                  · exact absurd hout (hnf m)
              | ok v =>
                  obtain ⟨hnf, hcur, hinv'⟩ :=
                    pollStep_exec_ok_coherent enc s er v last hres hinv hlast hn
                  rcases hout : (pollStep enc s (.executionResponse er)).2 with _ | m | m
                  · simp only [runTrace, hout]
                    exact ih _ (some er.execution_id) (by rw [hcur]; exact hrest) hinv'
                  · simp only [runTrace, hout]
                    exact ih _ (some er.execution_id) (by rw [hcur]; exact hrest) hinv'
                  · exact absurd hout (hnf m)

/-- C2: over every interleaving in which execution results are processed in
strictly increasing id order and only for previously dispatched ids,
starting from a fresh executor, the retirement loop always exposes exactly
the matching ledger entry at the front, so the `InvalidGenerationId` panic
and the id-mismatch assertion of `poll_node_graph_evaluation` are
unreachable. -/
theorem ordered_results_never_panic (enc : ImageEncoder)
    (doc : DocumentMessageHandler) (responses : List Message)
    (trace : List ExecutorEvent) (hadm : Admissible 0 none trace) :
    (runTrace enc ⟨NodeGraphExecutor.init, doc, responses⟩ trace).2 = none :=
  runTrace_no_panic enc trace ⟨NodeGraphExecutor.init, doc, responses⟩ none hadm
    ⟨0, Nat.le_refl 0, Nat.le_refl 0, rfl⟩

theorem ordered_results_never_panic_witness :
    Admissible 0 none traceOrderedW ∧
    (runTrace encW ⟨NodeGraphExecutor.init, docW, []⟩ traceOrderedW).2 = none := by
  have hadm : Admissible 0 none traceOrderedW := by
    refine .dispatch _ _ _ _ _ _ (.dispatch _ _ _ _ _ _
      (.deliverExecution _ _ _ _ ?_ ?_
        (.deliverExecution _ _ _ _ ?_ ?_ (.nil _ _))))
    · intro r h
      cases h
    · decide
    · intro r h
      cases h
      decide
    · decide
  exact ⟨hadm, ordered_results_never_panic encW docW [] traceOrderedW hadm⟩

/-! ## Theorems: structure of the instrumented network -/

theorem find?_append_left {a : NodeList} {b : NodeList} {k : NodeId} {n : DocumentNode}
    (h : a.find? k = some n) : (a.append b).find? k = some n := by
  match a with
  | .nil => simp [NodeList.find?] at h
  | .cons id node tail =>
      by_cases hk : id = k <;> simp [NodeList.find?, hk, NodeList.append] at h ⊢
      · exact h
      · exact find?_append_left h

theorem find?_append_right {a : NodeList} {b : NodeList} {k : NodeId}
    (h : a.find? k = none) : (a.append b).find? k = b.find? k := by
  match a with
  | .nil => simp [NodeList.append]
  | .cons id node tail =>
      by_cases hk : id = k <;> simp [NodeList.find?, hk, NodeList.append] at h ⊢
      exact find?_append_right h

theorem find?_mem_keys {a : NodeList} {k : NodeId} {n : DocumentNode}
    (h : a.find? k = some n) : k ∈ a.keys := by
  match a with
  | .nil => simp [NodeList.find?] at h
  | .cons id node tail =>
      simp only [NodeList.keys, List.mem_cons]
      by_cases hk : id = k
      · exact Or.inl hk.symm
      · simp [NodeList.find?, hk] at h
        exact Or.inr (find?_mem_keys h)

theorem find?_eq_none_of_not_mem_keys {a : NodeList} {k : NodeId}
    (h : k ∉ a.keys) : a.find? k = none := by
  cases hf : a.find? k with
  | none => rfl
  | some n => exact absurd (find?_mem_keys hf) h

theorem inputsMaxRef_cons (j : NodeInput) (rest : List NodeInput) :
    inputsMaxRef (j :: rest) = max j.ref (inputsMaxRef rest) := rfl

theorem inputsMaxRef_le {l : List NodeInput} {i : NodeInput} (h : i ∈ l) :
    i.ref ≤ inputsMaxRef l := by
  induction l with
  | nil => simp at h
  | cons j rest ih =>
      rw [inputsMaxRef_cons]
      rcases List.mem_cons.mp h with rfl | h'
      · exact le_max_left _ _
      · exact le_trans (ih h') (le_max_right _ _)

theorem maxRef_cons (id : NodeId) (node : DocumentNode) (tail : NodeList) :
    NodeList.maxRef (.cons id node tail) = max (max id node.maxRef) tail.maxRef := by
  rw [NodeList.maxRef]

theorem keys_le_maxRef {nodes : NodeList} {k : NodeId} (h : k ∈ nodes.keys) :
    k ≤ nodes.maxRef := by
  match nodes with
  | .nil => simp [NodeList.keys] at h
  | .cons id node tail =>
      rw [maxRef_cons]
      rcases List.mem_cons.mp h with rfl | h'
      · exact le_trans (le_max_left _ _) (le_max_left _ _)
      · exact le_trans (keys_le_maxRef h') (le_max_right _ _)

theorem find?_maxRef {nodes : NodeList} {k : NodeId} {node : DocumentNode}
    (h : nodes.find? k = some node) :
    k ≤ nodes.maxRef ∧ node.maxRef ≤ nodes.maxRef := by
  match nodes with
  | .nil => simp [NodeList.find?] at h
  | .cons id nd tail =>
      rw [maxRef_cons]
      by_cases hk : id = k <;> simp [NodeList.find?, hk] at h
      · subst hk
        cases h
        exact ⟨le_trans (le_max_left _ _) (le_max_left _ _),
          le_trans (le_max_right _ _) (le_max_left _ _)⟩
      · obtain ⟨h1, h2⟩ := find?_maxRef h
        exact ⟨le_trans h1 (le_max_right _ _), le_trans h2 (le_max_right _ _)⟩

theorem monitorsToNodes_find_of_not_mem {mons : List (NodeInput × NodeId)} {k : NodeId}
    (h : k ∉ mons.map Prod.snd) : (monitorsToNodes mons).find? k = none := by
  induction mons with
  | nil => rfl
  | cons p rest ih =>
      obtain ⟨inp, m⟩ := p
      simp only [List.map_cons, List.mem_cons] at h
      push_neg at h
      simp [monitorsToNodes, NodeList.find?, Ne.symm h.1]
      exact ih h.2

theorem monitorsToNodes_find_mem {mons : List (NodeInput × NodeId)}
    {inp : NodeInput} {m : NodeId}
    (hnd : (mons.map Prod.snd).Pairwise (· < ·)) (hmem : (inp, m) ∈ mons) :
    (monitorsToNodes mons).find? m = some (monitorNode inp) := by
  induction mons with
  | nil => simp at hmem
  | cons p rest ih =>
      obtain ⟨inp0, m0⟩ := p
      simp only [List.map_cons, List.pairwise_cons] at hnd
      rcases List.mem_cons.mp hmem with heq | hmem'
      · cases heq
        simp [monitorsToNodes, NodeList.find?]
      · have hm : m0 < m := hnd.1 m (List.mem_map_of_mem Prod.snd hmem')
        have hne : m0 ≠ m := Nat.ne_of_lt hm
        simp [monitorsToNodes, NodeList.find?, hne]
        exact ih hnd.2 hmem'

theorem MonsBound.append {a b : List (NodeInput × NodeId)} {lo mid hi : Nat}
    (ha : MonsBound a lo mid) (hb : MonsBound b mid hi) (hlm : lo ≤ mid) (hmh : mid ≤ hi) :
    MonsBound (a ++ b) lo hi := by
  obtain ⟨ha1, ha2⟩ := ha
  obtain ⟨hb1, hb2⟩ := hb
  constructor
  · rw [List.map_append]
    apply List.pairwise_append.mpr
    refine ⟨ha1, hb1, ?_⟩
    intro x hx y hy
    exact lt_of_lt_of_le (ha2 x hx).2 (hb2 y hy).1
  · intro m hm
    rw [List.map_append] at hm
    rcases List.mem_append.mp hm with h | h
    · exact ⟨(ha2 m h).1, lt_of_lt_of_le (ha2 m h).2 hmh⟩
    · exact ⟨le_trans hlm (hb2 m h).1, (hb2 m h).2⟩

theorem wrapInputs_eq (inputs : List NodeInput) (path : List NodeId) (st : InstState) :
    wrapInputs inputs path st =
      ((List.range' st.next_id inputs.length).map (fun m => NodeInput.node m 0),
       inputs.zip (List.range' st.next_id inputs.length),
       (List.range' st.next_id inputs.length).map (fun m => path ++ [m]),
       { st with next_id := st.next_id + inputs.length }) := by
  induction inputs generalizing st with
  | nil => simp [wrapInputs, List.range']
  | cons i rest ih =>
      simp only [wrapInputs, ih, List.length_cons, List.range']
      simp [List.zip_cons_cons]
      omega

theorem find?_none_not_mem {a : NodeList} {k : NodeId} (h : a.find? k = none) :
    k ∉ a.keys := by
  intro hmem
  match a with
  | .nil => simp [NodeList.keys] at hmem
  | .cons id node tail =>
      rcases List.mem_cons.mp hmem with rfl | h'
      · simp [NodeList.find?] at h
      · by_cases hk : id = k
        · simp [NodeList.find?, hk] at h
        · simp [NodeList.find?, hk] at h
          exact find?_none_not_mem h h'

theorem zip_get_mem {α β : Type} {l1 : List α} {l2 : List β} (j : Nat)
    (hj : j < l1.length) (hj2 : j < l2.length) :
    (l1.get ⟨j, hj⟩, l2.get ⟨j, hj2⟩) ∈ l1.zip l2 := by
  induction l1 generalizing l2 j with
  | nil => simp at hj
  | cons a l1 ih =>
      match l2 with
      | [] => simp at hj2
      | b :: l2 =>
          match j with
          | 0 => simp [List.zip_cons_cons]
          | j + 1 =>
              simp only [List.zip_cons_cons, List.get, List.mem_cons]
              exact Or.inr (ih j _ _)

theorem map_snd_zip_eq {α β : Type} {l1 : List α} {l2 : List β}
    (h : l1.length = l2.length) : (l1.zip l2).map Prod.snd = l2 := by
  induction l1 generalizing l2 with
  | nil => cases l2 with
      | nil => rfl
      | cons b l2 => simp at h
  | cons a l1 ih =>
      cases l2 with
      | nil => simp at h
      | cons b l2 =>
          simp only [List.zip_cons_cons, List.map_cons]
          rw [ih (by simpa using h)]

mutual
/-- `Instrumented::add` realizes the rewiring relation on every level: under
a bound dominating all original ids, with the fresh-id supply above the
bound, the rewritten network is `RwNet`-related to the original. -/
theorem instrumentNetwork_char (net : NodeNetwork) (path : List NodeId) (st : InstState)
    (B : Nat) (hwf : net.WF) (hB : net.maxRef ≤ B) (hfresh : B < st.next_id) :
    st.next_id ≤ (instrumentNetwork net path st).2.next_id ∧
    RwNet B net (instrumentNetwork net path st).1 := by
  match net with
  | .mk nodes exports =>
    rcases hI : instrumentNodes nodes path st with ⟨nodes', mons, st'⟩
    have hkmax : NodeList.maxRef nodes ≤ B := by
      have : NodeList.maxRef nodes ≤ NodeNetwork.maxRef (.mk nodes exports) := by
        rw [NodeNetwork.maxRef]; exact le_max_left _ _
      exact le_trans this hB
    have hemax : inputsMaxRef exports ≤ B := by
      have : inputsMaxRef exports ≤ NodeNetwork.maxRef (.mk nodes exports) := by
        rw [NodeNetwork.maxRef]; exact le_max_right _ _
      exact le_trans this hB
    obtain ⟨hwf1, hwf2⟩ := hwf
    have IH := instrumentNodes_char nodes path st B hwf2 hwf1 hkmax hfresh
    rw [hI] at IH
    obtain ⟨hmono, hkeys, hmb, htrans⟩ := IH
    simp only [instrumentNetwork, hI]
    refine ⟨hmono, ?_⟩
    rw [RwNet]
    have hkeysB : ∀ key ∈ nodes'.keys, key ≤ B := by
      intro key hkey
      rw [hkeys] at hkey
      exact le_trans (keys_le_maxRef hkey) hkmax
    have hmonNotKey : ∀ p ∈ mons, nodes'.find? p.2 = none := by
      intro p hp
      apply find?_eq_none_of_not_mem_keys
      intro hmem
      have h1 := hkeysB p.2 hmem
      have h2 := (hmb.2 p.2 (List.mem_map_of_mem Prod.snd hp)).1
      exact absurd h1 (not_le.mpr (lt_of_lt_of_le hfresh h2))
    refine ⟨rfl, fun i hi => le_trans (inputsMaxRef_le hi) hemax, ?_, ?_⟩
    · intro k hk hnone
      show (nodes'.append (monitorsToNodes mons)).find? k = none
      rw [find?_append_right (find?_eq_none_of_not_mem_keys (by
        rw [hkeys]; exact find?_none_not_mem hnone))]
      apply monitorsToNodes_find_of_not_mem
      intro hmem
      have h2 := (hmb.2 k hmem).1
      exact absurd hk (not_le.mpr (lt_of_lt_of_le hfresh h2))
    · apply htrans
      · intro k n hfind
        show (nodes'.append (monitorsToNodes mons)).find? k = some n
        exact find?_append_left hfind
      · intro p hp
        show (nodes'.append (monitorsToNodes mons)).find? p.2 = some (monitorNode p.1)
        rw [find?_append_right (hmonNotKey p hp)]
        exact monitorsToNodes_find_mem hmb.1 hp

theorem instrumentNodes_char (nodes : NodeList) (path : List NodeId) (st : InstState)
    (B : Nat) (hwf : NodeList.WF nodes) (hnd : nodes.keys.Nodup)
    (hB : NodeList.maxRef nodes ≤ B) (hfresh : B < st.next_id) :
    st.next_id ≤ (instrumentNodes nodes path st).2.2.next_id ∧
    (instrumentNodes nodes path st).1.keys = nodes.keys ∧
    MonsBound (instrumentNodes nodes path st).2.1 st.next_id
      (instrumentNodes nodes path st).2.2.next_id ∧
    (∀ net' : NodeNetwork,
      (∀ k n, (instrumentNodes nodes path st).1.find? k = some n →
        net'.find? k = some n) →
      (∀ p ∈ (instrumentNodes nodes path st).2.1,
        net'.find? p.2 = some (monitorNode p.1)) →
      RwNodes B nodes net') := by
  match nodes with
  | .nil =>
      refine ⟨le_refl _, rfl, ⟨List.Pairwise.nil, ?_⟩, ?_⟩
      · intro m hm
        exact absurd hm (List.not_mem_nil m)
      · intro net' _ _
        exact trivial
  | .cons k node tail =>
      obtain ⟨hwfn, hwft⟩ := hwf
      rcases hN : instrumentNode k node path st with ⟨node1, mons1, stA⟩
      rcases hT : instrumentNodes tail path stA with ⟨tail', mons2, stB⟩
      have hmaxn : node.maxRef ≤ B := by
        have h : node.maxRef ≤ NodeList.maxRef (.cons k node tail) := by
          rw [maxRef_cons]; exact le_trans (le_max_right _ _) (le_max_left _ _)
        exact le_trans h hB
      have hmaxt : NodeList.maxRef tail ≤ B := by
        have h : NodeList.maxRef tail ≤ NodeList.maxRef (.cons k node tail) := by
          rw [maxRef_cons]; exact le_max_right _ _
        exact le_trans h hB
      have hkB : k ≤ B := by
        have h : k ≤ NodeList.maxRef (.cons k node tail) := by
          rw [maxRef_cons]; exact le_trans (le_max_left _ _) (le_max_left _ _)
        exact le_trans h hB
      have IHn := instrumentNode_char k node path st B hwfn hmaxn hfresh
      rw [hN] at IHn
      dsimp only at IHn
      obtain ⟨hmonoA, hmbA, ms, impl', hnode1, hlen, hrw, hmons1⟩ := IHn
      simp only [NodeList.keys, List.nodup_cons] at hnd
      have IHt := instrumentNodes_char tail path stA B hwft hnd.2 hmaxt
        (lt_of_lt_of_le hfresh hmonoA)
      rw [hT] at IHt
      dsimp only at IHt
      obtain ⟨hmonoB, hkeysT, hmbB, htransT⟩ := IHt
      rw [instrumentNodes.eq_def]
      simp only [hN, hT]
      refine ⟨le_trans hmonoA hmonoB, ?_, ?_, ?_⟩
      · simp [NodeList.keys, hkeysT]
      · exact MonsBound.append hmbA hmbB hmonoA hmonoB
      · intro net' hfn hfm
        match node, hnode1, hlen, hrw, hmons1, hmaxn with
        | .mk inputs impl, hnode1, hlen, hrw, hmons1, hmaxn =>
          rw [RwNodes]
          refine ⟨hkB, ?_, ?_, ?_⟩
          · intro i hi
            have h1 : NodeInput.ref i ≤ inputsMaxRef inputs := inputsMaxRef_le hi
            have h2 : inputsMaxRef inputs ≤ DocumentNode.maxRef (.mk inputs impl) := by
              rw [DocumentNode.maxRef]; exact le_max_left _ _
            exact le_trans h1 (le_trans h2 hmaxn)
          · refine ⟨ms, impl', ?_, hlen, hrw, ?_⟩
            · apply hfn
              simp [NodeList.find?, hnode1]
            · intro j hj hj2
              have hmem : ((DocumentNode.mk inputs impl).inputs.get ⟨j, hj⟩,
                  ms.get ⟨j, hj2⟩) ∈ mons1 ++ mons2 := by
                rw [hmons1]
                exact List.mem_append_left _ (zip_get_mem j hj hj2)
              exact hfm _ hmem
          · apply htransT
            · intro k' n hfind
              apply hfn
              have hk' : k' ∈ tail.keys := by
                rw [← hkeysT]; exact find?_mem_keys hfind
              have hne : k ≠ k' := fun heq => hnd.1 (heq ▸ hk')
              simp [NodeList.find?, hne, hfind]
            · intro p hp
              exact hfm p (List.mem_append_right _ hp)

theorem instrumentNode_char (id : NodeId) (node : DocumentNode) (path : List NodeId)
    (st : InstState) (B : Nat) (hwf : node.WF) (hB : node.maxRef ≤ B)
    (hfresh : B < st.next_id) :
    st.next_id ≤ (instrumentNode id node path st).2.2.next_id ∧
    MonsBound (instrumentNode id node path st).2.1 st.next_id
      (instrumentNode id node path st).2.2.next_id ∧
    ∃ (ms : List NodeId) (impl' : DocumentNodeImplementation),
      (instrumentNode id node path st).1 = .mk (ms.map (fun m => NodeInput.node m 0)) impl' ∧
      ms.length = node.inputs.length ∧
      RwImpl node.implementation impl' ∧
      (instrumentNode id node path st).2.1 = node.inputs.zip ms := by
  match node with
  | .mk inputs impl =>
    have hzipBound : ∀ (st1 : InstState), st.next_id ≤ st1.next_id →
        MonsBound (inputs.zip (List.range' st1.next_id inputs.length)) st.next_id
          (st1.next_id + inputs.length) := by
      intro st1 hmono
      have hmap : (inputs.zip (List.range' st1.next_id inputs.length)).map Prod.snd =
          List.range' st1.next_id inputs.length :=
        map_snd_zip_eq (by simp)
      constructor
      · rw [hmap]; exact List.pairwise_lt_range' _ _ 1
      · intro m hm
        rw [hmap] at hm
        have hb := List.mem_range'_1.mp hm
        exact ⟨le_trans hmono hb.1, hb.2⟩
    match impl with
    | .protoNode ident =>
        simp only [instrumentNode, wrapInputs_eq]
        refine ⟨Nat.le_add_right _ _, by simpa using hzipBound st (le_refl _), ?_⟩
        refine ⟨List.range' st.next_id inputs.length, .protoNode ident, rfl,
          by simp [DocumentNode.inputs], ?_, rfl⟩
        rw [DocumentNode.implementation, RwImpl]
    | .extract =>
        simp only [instrumentNode, wrapInputs_eq]
        refine ⟨Nat.le_add_right _ _, by simpa using hzipBound st (le_refl _), ?_⟩
        refine ⟨List.range' st.next_id inputs.length, .extract, rfl,
          by simp [DocumentNode.inputs], ?_, rfl⟩
        rw [DocumentNode.implementation, RwImpl]
    | .network nested =>
        rcases hIN : instrumentNetwork nested (path ++ [id]) st with ⟨nested', st1⟩
        have hnmax : nested.maxRef ≤ B := by
          have h1 : DocumentNodeImplementation.maxRef (.network nested) = nested.maxRef := by
            rw [DocumentNodeImplementation.maxRef]
          have h2 : DocumentNodeImplementation.maxRef (.network nested) ≤
              DocumentNode.maxRef (.mk inputs (.network nested)) := by
            rw [DocumentNode.maxRef]; exact le_max_right _ _
          exact le_trans (h1 ▸ h2) hB
        have hwfn : nested.WF := by
          rw [DocumentNode.WF, DocumentNodeImplementation.WF] at hwf
          exact hwf
        have IH := instrumentNetwork_char nested (path ++ [id]) st B hwfn hnmax hfresh
        rw [hIN] at IH
        obtain ⟨hmono1, hrwNested⟩ := IH
        simp only [instrumentNode, hIN, wrapInputs_eq]
        refine ⟨le_trans hmono1 (Nat.le_add_right _ _), ?_, ?_⟩
        · simpa using hzipBound st1 hmono1
        · refine ⟨List.range' st1.next_id inputs.length, .network nested', rfl,
            by simp [DocumentNode.inputs], ?_, rfl⟩
          rw [DocumentNode.implementation, RwImpl]
          exact ⟨B, nested', rfl, hrwNested⟩
end

/-- `Instrumented::new` realizes the rewiring relation with the network's
own id bound. -/
theorem Instrumented_new_rw (net : NodeNetwork) (hwf : net.WF) :
    RwNet net.maxRef net (Instrumented.new net).1 := by
  have h := instrumentNetwork_char net [] ⟨net.maxRef + 1, [], []⟩ net.maxRef hwf
    (le_refl _) (Nat.lt_succ_self _)
  simpa [Instrumented.new] using h.2

theorem RwNet_dest {B : Nat} {net net' : NodeNetwork} (h : RwNet B net net') :
    net'.exports = net.exports ∧
    (∀ i ∈ net.exports, NodeInput.ref i ≤ B) ∧
    (∀ k, k ≤ B → net.find? k = none → net'.find? k = none) ∧
    RwNodes B net.nodes net' := by
  match net with
  | .mk nodes exports => rw [RwNet] at h; exact h

theorem RwImpl_proto {ident : String} {impl' : DocumentNodeImplementation}
    (h : RwImpl (.protoNode ident) impl') : impl' = .protoNode ident := by
  rw [RwImpl] at h
  exact h

theorem RwImpl_extract {impl' : DocumentNodeImplementation}
    (h : RwImpl .extract impl') : impl' = .extract := by
  rw [RwImpl] at h
  exact h

theorem RwImpl_network {nested : NodeNetwork} {impl' : DocumentNodeImplementation}
    (h : RwImpl (.network nested) impl') :
    ∃ (B' : Nat) (nested' : NodeNetwork), impl' = .network nested' ∧ RwNet B' nested nested' := by
  rw [RwImpl] at h
  exact h

theorem RwNodes_find {B : Nat} {nodes : NodeList} {net' : NodeNetwork}
    (h : RwNodes B nodes net') {k : NodeId} {node : DocumentNode}
    (hfind : nodes.find? k = some node) :
    (∀ i ∈ node.inputs, NodeInput.ref i ≤ B) ∧
    ∃ (ms : List NodeId) (impl' : DocumentNodeImplementation),
      net'.find? k = some (.mk (ms.map (fun m => NodeInput.node m 0)) impl') ∧
      ms.length = node.inputs.length ∧
      RwImpl node.implementation impl' ∧
      (∀ j (hj : j < node.inputs.length) (hj2 : j < ms.length),
        net'.find? (ms.get ⟨j, hj2⟩) = some (monitorNode (node.inputs.get ⟨j, hj⟩))) := by
  match nodes with
  | .nil => simp [NodeList.find?] at hfind
  | .cons id nd tail =>
      match nd with
      | .mk inputs impl =>
        rw [RwNodes] at h
        obtain ⟨_, hib, hcorr, htail⟩ := h
        by_cases hk : id = k
        · subst hk
          simp [NodeList.find?] at hfind
          subst hfind
          exact ⟨hib, hcorr⟩
        · simp [NodeList.find?, hk] at hfind
          exact RwNodes_find htail hfind

theorem RwNet_find {B : Nat} {net net' : NodeNetwork} (h : RwNet B net net')
    {k : NodeId} {node : DocumentNode} (hfind : net.find? k = some node) :
    (∀ i ∈ node.inputs, NodeInput.ref i ≤ B) ∧
    ∃ (ms : List NodeId) (impl' : DocumentNodeImplementation),
      net'.find? k = some (.mk (ms.map (fun m => NodeInput.node m 0)) impl') ∧
      ms.length = node.inputs.length ∧
      RwImpl node.implementation impl' ∧
      (∀ j (hj : j < node.inputs.length) (hj2 : j < ms.length),
        net'.find? (ms.get ⟨j, hj2⟩) = some (monitorNode (node.inputs.get ⟨j, hj⟩))) :=
  RwNodes_find (RwNet_dest h).2.2.2 hfind

/-! ## Fuel monotonicity of the evaluator -/

mutual
theorem evalInput_mono {V : Type} (sem : EngineSemantics V) (f f' : Nat) (hf : f ≤ f')
    (net : NodeNetwork) (env : List V) (i : NodeInput) (r : Except String V)
    (h : evalInput sem f net env i = some r) : evalInput sem f' net env i = some r := by
  match i with
  | .value p e => rw [evalInput] at h ⊢; exact h
  | .network idx => rw [evalInput] at h ⊢; exact h
  | .otherInput p => rw [evalInput] at h ⊢; exact h
  | .node nid oi =>
      cases f with
      | zero => rw [evalInput] at h; exact absurd h (by simp)
      | succ g =>
          cases f' with
          | zero => exact absurd hf (Nat.not_succ_le_zero g)
          | succ g' =>
              rw [evalInput] at h ⊢
              exact evalNode_mono sem g g' (Nat.succ_le_succ_iff.mp hf) net env nid oi r h
termination_by (f, 0, 0)

theorem evalInputs_mono {V : Type} (sem : EngineSemantics V) (f f' : Nat) (hf : f ≤ f')
    (net : NodeNetwork) (env : List V) (l : List NodeInput) (q : Except String (List V))
    (h : evalInputs sem f net env l = some q) : evalInputs sem f' net env l = some q := by
  match l with
  | [] => rw [evalInputs] at h ⊢; exact h
  | i :: rest =>
      rw [evalInputs] at h ⊢
      cases hi : evalInput sem f net env i with
      | none => rw [hi] at h; simp at h
      | some ri =>
          rw [hi] at h
          rw [evalInput_mono sem f f' hf net env i _ hi]
          cases ri with
          | error e => exact h
          | ok v =>
              dsimp only at h ⊢
              cases hrest : evalInputs sem f net env rest with
              | none => rw [hrest] at h; simp at h
              | some qr =>
                  rw [hrest] at h
                  rw [evalInputs_mono sem f f' hf net env rest _ hrest]
                  exact h
termination_by (f, 1, l.length)

theorem evalNode_mono {V : Type} (sem : EngineSemantics V) (f f' : Nat) (hf : f ≤ f')
    (net : NodeNetwork) (env : List V) (nid : NodeId) (oi : Nat) (r : Except String V)
    (h : evalNode sem f net env nid oi = some r) : evalNode sem f' net env nid oi = some r := by
  rw [evalNode] at h ⊢
  cases hfind : net.find? nid with
  | none => rw [hfind] at h; exact h
  | some node =>
      rw [hfind] at h
      dsimp only at h ⊢
      cases hins : evalInputs sem f net env node.inputs with
      | none => rw [hins] at h; simp at h
      | some ei =>
          rw [hins] at h
          rw [evalInputs_mono sem f f' hf net env node.inputs _ hins]
          cases ei with
          | error e => exact h
          | ok vs =>
              dsimp only at h ⊢
              cases himpl : node.implementation with
              | protoNode ident => rw [himpl] at h; exact h
              | extract => rw [himpl] at h; exact h
              | network nested =>
                  rw [himpl] at h
                  exact evalExport_mono sem f f' hf nested vs oi r h
termination_by (f, 2, 0)

theorem evalExport_mono {V : Type} (sem : EngineSemantics V) (f f' : Nat) (hf : f ≤ f')
    (net : NodeNetwork) (env : List V) (oi : Nat) (r : Except String V)
    (h : evalExport sem f net env oi = some r) : evalExport sem f' net env oi = some r := by
  rw [evalExport] at h ⊢
  cases hoi : net.exports.get? oi with
  | none => rw [hoi] at h; exact h
  | some i =>
      rw [hoi] at h
      exact evalInput_mono sem f f' hf net env i r h
termination_by (f, 1, 0)
end

/-! ## Forward simulation: the instrumented network reproduces every result -/

theorem mem_of_getq {α : Type} : ∀ {l : List α} {n : Nat} {a : α},
    l.get? n = some a → a ∈ l
  | [], n, _, h => by simp [List.get?] at h
  | b :: t, 0, a, h => by
      simp [List.get?] at h
      simp [h]
  | _ :: t, n + 1, a, h => by
      simp only [List.get?] at h
      exact List.mem_cons_of_mem _ (mem_of_getq h)

/-- A monitor tap is semantically an identity edge: evaluating the edge into
the monitor (one extra fuel step) equals evaluating the original input. -/
theorem monitor_tap_eval {V : Type} (sem : EngineSemantics V)
    (hmon : ∀ v, sem.denote MONITOR_IDENTIFIER [v] = Except.ok v)
    (g : Nat) (net' : NodeNetwork) (env : List V) (m : NodeId) (i : NodeInput)
    (hm : net'.find? m = some (monitorNode i)) :
    evalInput sem (g + 1) net' env (.node m 0) = evalInput sem g net' env i := by
  rw [evalInput, evalNode, hm, monitorNode]
  dsimp only [DocumentNode.inputs, DocumentNode.implementation]
  rw [evalInputs, evalInputs]
  cases hx : evalInput sem g net' env i with
  | none => rfl
  | some ri =>
      cases ri with
      | error e => rfl
      | ok v =>
          dsimp only
          rw [hmon]

mutual
theorem fwdInput {V : Type} (sem : EngineSemantics V)
    (hmon : ∀ v, sem.denote MONITOR_IDENTIFIER [v] = Except.ok v)
    (f B : Nat) (net net' : NodeNetwork) (hrw : RwNet B net net')
    (env : List V) (i : NodeInput) (href : NodeInput.ref i ≤ B)
    (r : Except String V) (h : evalInput sem f net env i = some r) :
    evalInput sem (2 * f) net' env i = some r := by
  match i with
  | .value p e => rw [evalInput] at h ⊢; exact h
  | .network idx => rw [evalInput] at h ⊢; exact h
  | .otherInput p => rw [evalInput] at h ⊢; exact h
  | .node nid oi =>
      cases f with
      | zero => rw [evalInput] at h; exact absurd h (by simp)
      | succ g =>
          rw [evalInput] at h
          have he : 2 * (g + 1) = (2 * g + 1) + 1 := by omega
          rw [he, evalInput]
          exact fwdNode sem hmon g B net net' hrw env nid oi href r h
termination_by (f, 0, 0)

theorem fwdTaps {V : Type} (sem : EngineSemantics V)
    (hmon : ∀ v, sem.denote MONITOR_IDENTIFIER [v] = Except.ok v)
    (f B : Nat) (net net' : NodeNetwork) (hrw : RwNet B net net')
    (env : List V) (l : List NodeInput) (ms : List NodeId)
    (q : Except String (List V))
    (hlen : ms.length = l.length)
    (hmons : ∀ j (hj : j < l.length) (hj2 : j < ms.length),
      net'.find? (ms.get ⟨j, hj2⟩) = some (monitorNode (l.get ⟨j, hj⟩)))
    (hrefs : ∀ i ∈ l, NodeInput.ref i ≤ B)
    (h : evalInputs sem f net env l = some q) :
    evalInputs sem (2 * f + 1) net' env (ms.map (fun m => NodeInput.node m 0)) = some q := by
  match l, ms with
  | [], [] =>
      simp only [List.map_nil]
      rw [evalInputs] at h ⊢
      exact h
  | [], m :: mrest => simp at hlen
  | i :: rest, [] => simp at hlen
  | i :: rest, m :: mrest =>
      simp only [List.map_cons]
      rw [evalInputs] at h ⊢
      have hm0 : net'.find? m = some (monitorNode i) :=
        hmons 0 (Nat.succ_pos _) (Nat.succ_pos _)
      rw [monitor_tap_eval sem hmon (2 * f) net' env m i hm0]
      cases hi : evalInput sem f net env i with
      | none => rw [hi] at h; simp at h
      | some ri =>
          rw [hi] at h
          rw [fwdInput sem hmon f B net net' hrw env i (hrefs i (by simp)) ri hi]
          cases ri with
          | error e => exact h
          | ok v =>
              dsimp only at h ⊢
              cases hrest : evalInputs sem f net env rest with
              | none => rw [hrest] at h; simp at h
              | some qr =>
                  rw [hrest] at h
                  have hlen' : mrest.length = rest.length := by
                    simp only [List.length_cons] at hlen; omega
                  have hmons' : ∀ j (hj : j < rest.length) (hj2 : j < mrest.length),
                      net'.find? (mrest.get ⟨j, hj2⟩) =
                        some (monitorNode (rest.get ⟨j, hj⟩)) :=
                    fun j hj hj2 =>
                      hmons (j + 1) (Nat.succ_lt_succ hj) (Nat.succ_lt_succ hj2)
                  rw [fwdTaps sem hmon f B net net' hrw env rest mrest qr hlen'
                    hmons' (fun x hx => hrefs x (List.mem_cons_of_mem _ hx)) hrest]
                  exact h
termination_by (f, 1, l.length)

theorem fwdNode {V : Type} (sem : EngineSemantics V)
    (hmon : ∀ v, sem.denote MONITOR_IDENTIFIER [v] = Except.ok v)
    (g B : Nat) (net net' : NodeNetwork) (hrw : RwNet B net net')
    (env : List V) (nid : NodeId) (oi : Nat) (hnid : nid ≤ B)
    (r : Except String V) (h : evalNode sem g net env nid oi = some r) :
    evalNode sem (2 * g + 1) net' env nid oi = some r := by
  rw [evalNode] at h ⊢
  cases hfind : net.find? nid with
  | none =>
      rw [hfind] at h
      rw [(RwNet_dest hrw).2.2.1 nid hnid hfind]
      exact h
  | some node =>
      rw [hfind] at h
      obtain ⟨hrefs, ms, impl', hfind', hlen, himpl, hmons⟩ := RwNet_find hrw hfind
      rw [hfind']
      dsimp only at h
      dsimp only [DocumentNode.inputs, DocumentNode.implementation]
      cases hins : evalInputs sem g net env node.inputs with
      | none => rw [hins] at h; simp at h
      | some ei =>
          rw [hins] at h
          rw [fwdTaps sem hmon g B net net' hrw env node.inputs ms ei hlen hmons hrefs hins]
          cases ei with
          | error e => exact h
          | ok vs =>
              dsimp only at h ⊢
              cases himplc : node.implementation with
              | protoNode ident =>
                  rw [himplc] at h himpl
                  rw [RwImpl_proto himpl]
                  exact h
              | extract =>
                  rw [himplc] at h himpl
                  rw [RwImpl_extract himpl]
                  exact h
              | network nested =>
                  rw [himplc] at h himpl
                  obtain ⟨B', nested', heq, hrw'⟩ := RwImpl_network himpl
                  rw [heq]
                  exact evalExport_mono sem (2 * g) (2 * g + 1) (Nat.le_succ _) nested' vs oi r
                    (fwdExport sem hmon g B' nested nested' hrw' vs oi r h)
termination_by (g, 2, 0)

theorem fwdExport {V : Type} (sem : EngineSemantics V)
    (hmon : ∀ v, sem.denote MONITOR_IDENTIFIER [v] = Except.ok v)
    (f B : Nat) (net net' : NodeNetwork) (hrw : RwNet B net net')
    (env : List V) (oi : Nat)
    (r : Except String V) (h : evalExport sem f net env oi = some r) :
    evalExport sem (2 * f) net' env oi = some r := by
  rw [evalExport] at h ⊢
  rw [(RwNet_dest hrw).1]
  cases hoi : net.exports.get? oi with
  | none => rw [hoi] at h; exact h
  | some i =>
      rw [hoi] at h
      exact fwdInput sem hmon f B net net' hrw env i
        ((RwNet_dest hrw).2.1 i (mem_of_getq hoi)) r h
termination_by (f, 1, 0)
end

/-! ## Backward simulation: the instrumented network invents no result -/

mutual
theorem bwdInput {V : Type} (sem : EngineSemantics V)
    (hmon : ∀ v, sem.denote MONITOR_IDENTIFIER [v] = Except.ok v)
    (f B : Nat) (net net' : NodeNetwork) (hrw : RwNet B net net')
    (env : List V) (i : NodeInput) (href : NodeInput.ref i ≤ B)
    (r : Except String V) (h : evalInput sem f net' env i = some r) :
    evalInput sem f net env i = some r := by
  match i with
  | .value p e => rw [evalInput] at h ⊢; exact h
  | .network idx => rw [evalInput] at h ⊢; exact h
  | .otherInput p => rw [evalInput] at h ⊢; exact h
  | .node nid oi =>
      cases f with
      | zero => rw [evalInput] at h; exact absurd h (by simp)
      | succ g =>
          rw [evalInput] at h ⊢
          exact bwdNode sem hmon g B net net' hrw env nid oi href r h
termination_by (f, 0, 0)

theorem bwdTaps {V : Type} (sem : EngineSemantics V)
    (hmon : ∀ v, sem.denote MONITOR_IDENTIFIER [v] = Except.ok v)
    (f B : Nat) (net net' : NodeNetwork) (hrw : RwNet B net net')
    (env : List V) (l : List NodeInput) (ms : List NodeId)
    (q : Except String (List V))
    (hlen : ms.length = l.length)
    (hmons : ∀ j (hj : j < l.length) (hj2 : j < ms.length),
      net'.find? (ms.get ⟨j, hj2⟩) = some (monitorNode (l.get ⟨j, hj⟩)))
    (hrefs : ∀ i ∈ l, NodeInput.ref i ≤ B)
    (h : evalInputs sem f net' env (ms.map (fun m => NodeInput.node m 0)) = some q) :
    evalInputs sem f net env l = some q := by
  match l, ms with
  | [], [] =>
      simp only [List.map_nil] at h
      rw [evalInputs] at h ⊢
      exact h
  | [], m :: mrest => simp at hlen
  | i :: rest, [] => simp at hlen
  | i :: rest, m :: mrest =>
      simp only [List.map_cons] at h
      rw [evalInputs] at h ⊢
      by_cases hf0 : f = 0
      · subst hf0
        rw [evalInput] at h
        simp at h
      · have hf1 : f = (f - 1) + 1 := by omega
        have hm0 : net'.find? m = some (monitorNode i) :=
          hmons 0 (Nat.succ_pos _) (Nat.succ_pos _)
        rw [hf1] at h
        rw [monitor_tap_eval sem hmon (f - 1) net' env m i hm0] at h
        cases hi : evalInput sem (f - 1) net' env i with
        | none => rw [hi] at h; simp at h
        | some ri =>
            rw [hi] at h
            rw [evalInput_mono sem (f - 1) f (by omega) net env i ri
              (bwdInput sem hmon (f - 1) B net net' hrw env i (hrefs i (by simp)) ri hi)]
            cases ri with
            | error e => exact h
            | ok v =>
                dsimp only at h ⊢
                cases hrest : evalInputs sem ((f - 1) + 1) net' env
                    (mrest.map (fun m => NodeInput.node m 0)) with
                | none => rw [hrest] at h; simp at h
                | some qr =>
                    rw [hrest] at h
                    have hrest' : evalInputs sem f net' env
                        (mrest.map (fun m => NodeInput.node m 0)) = some qr := by
                      rw [hf1]; exact hrest
                    have hlen' : mrest.length = rest.length := by
                      simp only [List.length_cons] at hlen; omega
                    have hmons' : ∀ j (hj : j < rest.length) (hj2 : j < mrest.length),
                        net'.find? (mrest.get ⟨j, hj2⟩) =
                          some (monitorNode (rest.get ⟨j, hj⟩)) :=
                      fun j hj hj2 =>
                        hmons (j + 1) (Nat.succ_lt_succ hj) (Nat.succ_lt_succ hj2)
                    rw [bwdTaps sem hmon f B net net' hrw env rest mrest qr hlen'
                      hmons' (fun x hx => hrefs x (List.mem_cons_of_mem _ hx)) hrest']
                    exact h
termination_by (f, 1, l.length)

theorem bwdNode {V : Type} (sem : EngineSemantics V)
    (hmon : ∀ v, sem.denote MONITOR_IDENTIFIER [v] = Except.ok v)
    (g B : Nat) (net net' : NodeNetwork) (hrw : RwNet B net net')
    (env : List V) (nid : NodeId) (oi : Nat) (hnid : nid ≤ B)
    (r : Except String V) (h : evalNode sem g net' env nid oi = some r) :
    evalNode sem g net env nid oi = some r := by
  rw [evalNode] at h ⊢
  cases hfind : net.find? nid with
  | none =>
      rw [(RwNet_dest hrw).2.2.1 nid hnid hfind] at h
      exact h
  | some node =>
      obtain ⟨hrefs, ms, impl', hfind', hlen, himpl, hmons⟩ := RwNet_find hrw hfind
      rw [hfind'] at h
      dsimp only
      dsimp only [DocumentNode.inputs, DocumentNode.implementation] at h
      cases hins' : evalInputs sem g net' env (ms.map (fun m => NodeInput.node m 0)) with
      | none => rw [hins'] at h; simp at h
      | some ei =>
          rw [hins'] at h
          rw [bwdTaps sem hmon g B net net' hrw env node.inputs ms ei hlen hmons hrefs hins']
          cases ei with
          | error e => exact h
          | ok vs =>
              dsimp only at h ⊢
              cases himplc : node.implementation with
              | protoNode ident =>
                  rw [himplc] at himpl
                  rw [RwImpl_proto himpl] at h
                  exact h
              | extract =>
                  rw [himplc] at himpl
                  rw [RwImpl_extract himpl] at h
                  exact h
              | network nested =>
                  rw [himplc] at himpl
                  obtain ⟨B', nested', heq, hrw'⟩ := RwImpl_network himpl
                  rw [heq] at h
                  exact bwdExport sem hmon g B' nested nested' hrw' vs oi r h
termination_by (g, 2, 0)

theorem bwdExport {V : Type} (sem : EngineSemantics V)
    (hmon : ∀ v, sem.denote MONITOR_IDENTIFIER [v] = Except.ok v)
    (f B : Nat) (net net' : NodeNetwork) (hrw : RwNet B net net')
    (env : List V) (oi : Nat)
    (r : Except String V) (h : evalExport sem f net' env oi = some r) :
    evalExport sem f net env oi = some r := by
  rw [evalExport] at h ⊢
  rw [(RwNet_dest hrw).1] at h
  cases hoi : net.exports.get? oi with
  | none => rw [hoi] at h; exact h
  | some i =>
      rw [hoi] at h
      exact bwdInput sem hmon f B net net' hrw env i
        ((RwNet_dest hrw).2.1 i (mem_of_getq hoi)) r h
termination_by (f, 1, 0)
end

/-- C8: for every well-formed graph G and its instrumented form G' produced
by `Instrumented::new`, evaluating G and G' on identical inputs yields
identical primary outputs and identical errors — each inserted monitor node
forwards its single input unchanged as its output (the hypothesis on the
engine's denotation of the monitor identifier), so instrumentation is
purely additive and does not perturb the evaluated semantics. -/
theorem instrumentation_is_transparent {V : Type} (sem : EngineSemantics V)
    (hmon : ∀ v, sem.denote MONITOR_IDENTIFIER [v] = Except.ok v)
    (net : NodeNetwork) (hwf : net.WF) (env : List V) (oi : Nat)
    (r : Except String V) :
    (∃ fuel, evalExport sem fuel net env oi = some r) ↔
    (∃ fuel, evalExport sem fuel (Instrumented.new net).1 env oi = some r) := by
  have hrw := Instrumented_new_rw net hwf
  constructor
  · rintro ⟨f, h⟩
    exact ⟨2 * f, fwdExport sem hmon f net.maxRef net (Instrumented.new net).1 hrw env oi r h⟩
  · rintro ⟨f, h⟩
    exact ⟨f, bwdExport sem hmon f net.maxRef net (Instrumented.new net).1 hrw env oi r h⟩

/-- Witness for C8 at a concrete engine and graph: the equivalence holds for
the one-protonode adder network, and the original network does evaluate its
export to `93`, so the equivalence is not vacuous. -/
theorem instrumentation_is_transparent_witness :
    ((∃ fuel, evalExport semW fuel netC8 [] 0 = some (Except.ok 93)) ↔
      (∃ fuel, evalExport semW fuel (Instrumented.new netC8).1 [] 0 = some (Except.ok 93))) ∧
    evalExport semW 1 netC8 [] 0 = some (Except.ok 93) := by
  constructor
  · exact instrumentation_is_transparent semW (fun v => by simp [semW]) netC8
      (by simp [netC8, NodeNetwork.WF, NodeList.WF, DocumentNode.WF,
        DocumentNodeImplementation.WF, NodeList.keys]) [] 0 (Except.ok 93)
  · rw [evalExport]
    simp only [netC8, NodeNetwork.exports, List.get?]
    rw [evalInput, evalNode]
    simp only [NodeNetwork.find?, NodeList.find?, reduceIte]
    dsimp only [DocumentNode.inputs, DocumentNode.implementation]
    rw [evalInputs, evalInput, evalInputs, evalInput, evalInputs]
    simp [DocumentNode.inputs, DocumentNode.implementation, semW, MONITOR_IDENTIFIER]

/-! ## The recording maps of the instrumentation -/

theorem nameEntries_pushByName_mem {m : List (String × List (List (List NodeId)))}
    {ident : String} {vs : List (List NodeId)} (key : String) (v : List (List NodeId))
    (h : vs ∈ nameEntries m ident) : vs ∈ nameEntries (pushByName m key v) ident := by
  induction m with
  | nil => simp [nameEntries] at h
  | cons p rest ih =>
      obtain ⟨k, ws⟩ := p
      by_cases hk : k = key
      · subst hk
        by_cases hi : k = ident
        · subst hi
          simp [pushByName, nameEntries] at h ⊢
          exact Or.inl h
        · simp [pushByName, nameEntries, hi] at h ⊢
          exact h
      · by_cases hi : k = ident
        · subst hi
          simp [pushByName, nameEntries, hk] at h ⊢
          exact h
        · simp [pushByName, nameEntries, hk, hi] at h ⊢
          exact ih h

theorem nameEntries_pushByName_self (m : List (String × List (List (List NodeId))))
    (key : String) (v : List (List NodeId)) :
    v ∈ nameEntries (pushByName m key v) key := by
  induction m with
  | nil => simp [pushByName, nameEntries]
  | cons p rest ih =>
      obtain ⟨k, ws⟩ := p
      by_cases hk : k = key
      · subst hk
        simp [pushByName, nameEntries]
      · simp [pushByName, nameEntries, hk]
        exact ih

theorem lookupByPath_insert_self (m : List (List NodeId × List (List NodeId)))
    (key : List NodeId) (v : List (List NodeId)) :
    lookupByPath (insertByPath m key v) key = some v := by
  induction m with
  | nil => simp [insertByPath, lookupByPath]
  | cons q rest ih =>
      obtain ⟨k, w⟩ := q
      by_cases hk : k = key
      · simp [insertByPath, lookupByPath, hk]
      · simp [insertByPath, lookupByPath, hk]
        exact ih

theorem lookupByPath_insert_ne (m : List (List NodeId × List (List NodeId)))
    {p key : List NodeId} (v : List (List NodeId)) (h : p ≠ key) :
    lookupByPath (insertByPath m key v) p = lookupByPath m p := by
  induction m with
  | nil => simp [insertByPath, lookupByPath, Ne.symm h]
  | cons q rest ih =>
      obtain ⟨k, w⟩ := q
      by_cases hk : k = key
      · subst hk
        simp [insertByPath, lookupByPath, Ne.symm h]
      · simp only [insertByPath, if_neg hk]
        by_cases hp : k = p
        · simp [lookupByPath, hp]
        · simp only [lookupByPath, if_neg hp]
          exact ih

/-- Transport a recording contract along state extensions that keep every
key under `path` and never remove a by-name entry. -/
theorem TapRecord_mono {bp bp' : List (List NodeId × List (List NodeId))}
    {bn bn' : List (String × List (List (List NodeId)))} {path : List NodeId}
    {net net' : NodeNetwork}
    (h : TapRecord bp bn path net net')
    (hbp : ∀ s, lookupByPath bp' (path ++ s) = lookupByPath bp (path ++ s))
    (hbn : ∀ ident vs, vs ∈ nameEntries bn ident → vs ∈ nameEntries bn' ident) :
    TapRecord bp' bn' path net net' := by
  intro s node ident hfp himpl
  obtain ⟨ms, h1, h2, h3, h4⟩ := h s node ident hfp himpl
  exact ⟨ms, h1, by rw [hbp]; exact h2, h3, hbn ident _ h4⟩

mutual
/-- One instrumented network level fulfils the recording contract relative
to its path, touches only by-path keys under its path, and only extends the
by-name lists. -/
theorem instNetwork_taps (net : NodeNetwork) (path : List NodeId) (st : InstState)
    (hwf : net.WF) :
    TapRecord (instrumentNetwork net path st).2.protonodes_by_path
      (instrumentNetwork net path st).2.protonodes_by_name path net
      (instrumentNetwork net path st).1 ∧
    (∀ p, (∀ s, p ≠ path ++ s) →
      lookupByPath (instrumentNetwork net path st).2.protonodes_by_path p =
        lookupByPath st.protonodes_by_path p) ∧
    (∀ ident vs, vs ∈ nameEntries st.protonodes_by_name ident →
      vs ∈ nameEntries (instrumentNetwork net path st).2.protonodes_by_name ident) := by
  match net with
  | .mk nodes exports =>
    rcases hI : instrumentNodes nodes path st with ⟨nodes', mons, st'⟩
    obtain ⟨hnd, hwfs⟩ := hwf
    have IH := instNodes_taps nodes path st hwfs hnd
    rw [hI] at IH
    dsimp only at IH
    obtain ⟨hA, hB, hC, hD⟩ := IH
    simp only [instrumentNetwork, hI]
    refine ⟨?_, ?_, hD⟩
    · intro s node ident hfp himpl
      match s with
      | [] => simp [NodeNetwork.findPath?] at hfp
      | [k] =>
          rw [NodeNetwork.findPath?] at hfp
          simp only [NodeNetwork.find?, NodeNetwork.nodes] at hfp
          obtain ⟨ms, hlen, hfind', hlook, hname⟩ := hA k node ident hfp himpl
          refine ⟨ms, hlen, ?_, ?_, ?_⟩
          · simpa using hlook
          · rw [NodeNetwork.findPath?]
            simp only [NodeNetwork.find?, NodeNetwork.nodes]
            exact find?_append_left hfind'
          · simpa using hname
      | k :: r :: rs =>
          simp only [NodeNetwork.findPath?, NodeNetwork.find?, NodeNetwork.nodes] at hfp
          cases hfk : nodes.find? k with
          | none => rw [hfk] at hfp; simp at hfp
          | some nodeK =>
              rw [hfk] at hfp
              dsimp only at hfp
              cases himplK : nodeK.implementation with
              | protoNode i0 => rw [himplK] at hfp; simp at hfp
              | extract => rw [himplK] at hfp; simp at hfp
              | network nested =>
                  rw [himplK] at hfp
                  obtain ⟨ms0, nested', hfind', htrN⟩ := hB k nodeK nested hfk himplK
                  obtain ⟨ms, hlen, hlook, hfp', hname⟩ := htrN (r :: rs) node ident hfp himpl
                  refine ⟨ms, hlen, ?_, ?_, ?_⟩
                  · simpa [List.append_assoc] using hlook
                  · simp only [NodeNetwork.findPath?, NodeNetwork.find?, NodeNetwork.nodes]
                    rw [find?_append_left hfind']
                    dsimp only [DocumentNode.implementation]
                    exact hfp'
                  · simpa [List.append_assoc] using hname
    · intro p hp
      exact hC p (fun k hk s => hp (k :: s))

/-- The per-level node loop: every protonode-implemented entry gets its
by-path and by-name records, every network-implemented entry satisfies the
recording contract one level down, and the loop is framed to keys under the
level keys. -/
theorem instNodes_taps (nodes : NodeList) (path : List NodeId) (st : InstState)
    (hwf : NodeList.WF nodes) (hnd : nodes.keys.Nodup) :
    (∀ k node ident, nodes.find? k = some node →
      node.implementation = .protoNode ident →
      ∃ ms : List NodeId,
        ms.length = node.inputs.length ∧
        (instrumentNodes nodes path st).1.find? k =
          some (.mk (ms.map (fun m => NodeInput.node m 0)) (.protoNode ident)) ∧
        lookupByPath (instrumentNodes nodes path st).2.2.protonodes_by_path (path ++ [k]) =
          some (ms.map (fun m => path ++ [m])) ∧
        (ms.map (fun m => path ++ [m])) ∈
          nameEntries (instrumentNodes nodes path st).2.2.protonodes_by_name ident) ∧
    (∀ k node nested, nodes.find? k = some node →
      node.implementation = .network nested →
      ∃ (ms : List NodeId) (nested' : NodeNetwork),
        (instrumentNodes nodes path st).1.find? k =
          some (.mk (ms.map (fun m => NodeInput.node m 0)) (.network nested')) ∧
        TapRecord (instrumentNodes nodes path st).2.2.protonodes_by_path
          (instrumentNodes nodes path st).2.2.protonodes_by_name
          (path ++ [k]) nested nested') ∧
    (∀ p, (∀ k ∈ nodes.keys, ∀ s, p ≠ path ++ k :: s) →
      lookupByPath (instrumentNodes nodes path st).2.2.protonodes_by_path p =
        lookupByPath st.protonodes_by_path p) ∧
    (∀ ident vs, vs ∈ nameEntries st.protonodes_by_name ident →
      vs ∈ nameEntries (instrumentNodes nodes path st).2.2.protonodes_by_name ident) := by
  match nodes with
  | .nil =>
      refine ⟨?_, ?_, ?_, ?_⟩
      · intro k node ident hfind _
        simp [NodeList.find?] at hfind
      · intro k node nested hfind _
        simp [NodeList.find?] at hfind
      · intro p _
        rfl
      · intro ident vs h
        exact h
  | .cons id node tail =>
      obtain ⟨hwfn, hwft⟩ := hwf
      simp only [NodeList.keys, List.nodup_cons] at hnd
      rcases hN : instrumentNode id node path st with ⟨node1, mons1, stA⟩
      rcases hT : instrumentNodes tail path stA with ⟨tail', mons2, stB⟩
      have IHn := instNode_taps id node path st hwfn
      rw [hN] at IHn
      dsimp only at IHn
      obtain ⟨hPa, hPb, hPfr, hPnm⟩ := IHn
      have IHt := instNodes_taps tail path stA hwft hnd.2
      rw [hT] at IHt
      dsimp only at IHt
      obtain ⟨hTa, hTb, hTfr, hTnm⟩ := IHt
      have hframeHead : ∀ s : List NodeId,
          lookupByPath stB.protonodes_by_path ((path ++ [id]) ++ s) =
            lookupByPath stA.protonodes_by_path ((path ++ [id]) ++ s) := by
        intro s
        apply hTfr
        intro k' hk' s' heq
        rw [List.append_assoc, List.singleton_append] at heq
        have h2 := List.append_cancel_left heq
        injection h2 with h3 _
        exact hnd.1 (h3 ▸ hk')
      rw [instrumentNodes.eq_def]
      simp only [hN, hT]
      refine ⟨?_, ?_, ?_, ?_⟩
      · intro k nd ident hfind himpl
        by_cases hk : id = k
        · subst hk
          simp only [NodeList.find?, reduceIte] at hfind
          cases hfind
          obtain ⟨ms, hlen, hnode1, hlook, hname⟩ := hPa ident himpl
          refine ⟨ms, hlen, ?_, ?_, ?_⟩
          · simp [NodeList.find?, hnode1]
          · rw [show path ++ [id] = (path ++ [id]) ++ [] from (List.append_nil _).symm,
              hframeHead, List.append_nil]
            exact hlook
          · exact hTnm ident _ hname
        · simp only [NodeList.find?, if_neg hk] at hfind
          obtain ⟨ms, hlen, hfindT, hlook, hname⟩ := hTa k nd ident hfind himpl
          refine ⟨ms, hlen, ?_, hlook, hname⟩
          simp [NodeList.find?, hk, hfindT]
      · intro k nd nested hfind himpl
        by_cases hk : id = k
        · subst hk
          simp only [NodeList.find?, reduceIte] at hfind
          cases hfind
          obtain ⟨ms, nested', hnode1, htr⟩ := hPb nested himpl
          refine ⟨ms, nested', ?_, ?_⟩
          · simp [NodeList.find?, hnode1]
          · exact TapRecord_mono htr hframeHead hTnm
        · simp only [NodeList.find?, if_neg hk] at hfind
          obtain ⟨ms, nested', hfindT, htr⟩ := hTb k nd nested hfind himpl
          refine ⟨ms, nested', ?_, htr⟩
          simp [NodeList.find?, hk, hfindT]
      · intro p hp
        rw [hTfr p (fun k' hk' s => hp k' (List.mem_cons_of_mem _ hk') s)]
        exact hPfr p (fun s => hp id (List.mem_cons_self _ _) s)
      · intro ident vs h
        exact hTnm ident vs (hPnm ident vs h)

/-- One instrumented node: a protonode records its taps under its own path
and identifier; a network-implemented node hands the contract down to its
instrumented subgraph; only keys under `path ++ [id]` are written. -/
theorem instNode_taps (id : NodeId) (node : DocumentNode) (path : List NodeId)
    (st : InstState) (hwf : node.WF) :
    (∀ ident, node.implementation = .protoNode ident →
      ∃ ms : List NodeId,
        ms.length = node.inputs.length ∧
        (instrumentNode id node path st).1 =
          .mk (ms.map (fun m => NodeInput.node m 0)) (.protoNode ident) ∧
        lookupByPath (instrumentNode id node path st).2.2.protonodes_by_path (path ++ [id]) =
          some (ms.map (fun m => path ++ [m])) ∧
        (ms.map (fun m => path ++ [m])) ∈
          nameEntries (instrumentNode id node path st).2.2.protonodes_by_name ident) ∧
    (∀ nested, node.implementation = .network nested →
      ∃ (ms : List NodeId) (nested' : NodeNetwork),
        (instrumentNode id node path st).1 =
          .mk (ms.map (fun m => NodeInput.node m 0)) (.network nested') ∧
        TapRecord (instrumentNode id node path st).2.2.protonodes_by_path
          (instrumentNode id node path st).2.2.protonodes_by_name
          (path ++ [id]) nested nested') ∧
    (∀ p, (∀ s, p ≠ path ++ id :: s) →
      lookupByPath (instrumentNode id node path st).2.2.protonodes_by_path p =
        lookupByPath st.protonodes_by_path p) ∧
    (∀ ident vs, vs ∈ nameEntries st.protonodes_by_name ident →
      vs ∈ nameEntries (instrumentNode id node path st).2.2.protonodes_by_name ident) := by
  match node with
  | .mk inputs impl =>
    match impl with
    | .protoNode ident0 =>
        simp only [instrumentNode, wrapInputs_eq]
        refine ⟨?_, ?_, ?_, ?_⟩
        · intro ident himpl
          rw [DocumentNode.implementation] at himpl
          injection himpl with hident
          subst hident
          refine ⟨List.range' st.next_id inputs.length, by simp [DocumentNode.inputs],
            rfl, ?_, ?_⟩
          · exact lookupByPath_insert_self _ _ _
          · exact nameEntries_pushByName_self _ _ _
        · intro nested himpl
          rw [DocumentNode.implementation] at himpl
          simp at himpl
        · intro p hp
          exact lookupByPath_insert_ne _ _ (hp [])
        · intro ident vs h
          exact nameEntries_pushByName_mem _ _ h
    | .extract =>
        simp only [instrumentNode, wrapInputs_eq]
        refine ⟨?_, ?_, ?_, ?_⟩
        · intro ident himpl
          rw [DocumentNode.implementation] at himpl
          simp at himpl
        · intro nested himpl
          rw [DocumentNode.implementation] at himpl
          simp at himpl
        · intro p _
          trivial
        · intro ident vs h
          exact h
    | .network nested0 =>
        rcases hIN : instrumentNetwork nested0 (path ++ [id]) st with ⟨nested1, st1⟩
        have hwfn : nested0.WF := by
          rw [DocumentNode.WF, DocumentNodeImplementation.WF] at hwf
          exact hwf
        have IH := instNetwork_taps nested0 (path ++ [id]) st hwfn
        rw [hIN] at IH
        dsimp only at IH
        obtain ⟨htr, hfr, hnm⟩ := IH
        simp only [instrumentNode, hIN, wrapInputs_eq]
        refine ⟨?_, ?_, ?_, ?_⟩
        · intro ident himpl
          rw [DocumentNode.implementation] at himpl
          simp at himpl
        · intro nested himpl
          rw [DocumentNode.implementation] at himpl
          injection himpl with hn
          subst hn
          exact ⟨List.range' st1.next_id inputs.length, nested1, rfl, htr⟩
        · intro p hp
          apply hfr
          intro s
          rw [List.append_assoc, List.singleton_append]
          exact hp s
        · exact hnm
end

/-- C9 (amended): `Instrumented::new` inserts exactly one fresh monitor node
per input slot of every node, recursively including nodes inside nested
subgraph networks, and rewires each original input edge through its tap
(the rewiring relation); the resulting map associates every
protonode-implemented node's structural path with the list of its taps'
identities in input-declaration order (the taps being the targets of the
node's rewired inputs), and every protonode identifier with the tap
identities of each of its occurrences across the whole graph.  Nodes whose
implementation is a nested network or an extract are instrumented but get
no by-path entry. -/
theorem instrumentation_taps_all_inputs_and_maps_protonodes (net : NodeNetwork)
    (hwf : net.WF) :
    RwNet net.maxRef net (Instrumented.new net).1 ∧
    TapRecord (Instrumented.new net).2.protonodes_by_path
      (Instrumented.new net).2.protonodes_by_name [] net (Instrumented.new net).1 := by
  refine ⟨Instrumented_new_rw net hwf, ?_⟩
  have h := (instNetwork_taps net [] ⟨net.maxRef + 1, [], []⟩ hwf).1
  simpa [Instrumented.new] using h

/-- Witness for C9 at the two-level fixture: its nested `add` protonode is
recorded, and the whole network is rewired. -/
theorem instrumentation_taps_witness :
    RwNet netC9.maxRef netC9 (Instrumented.new netC9).1 ∧
    TapRecord (Instrumented.new netC9).2.protonodes_by_path
      (Instrumented.new netC9).2.protonodes_by_name [] netC9 (Instrumented.new netC9).1 :=
  instrumentation_taps_all_inputs_and_maps_protonodes netC9
    (by simp [netC9, NodeNetwork.WF, NodeList.WF, DocumentNode.WF,
      DocumentNodeImplementation.WF, NodeList.keys])

/-- Counterexample to the original C9 wording: the by-path map does NOT
associate every node's structural path with its taps — the
network-implemented node `1` of `netC9` exists, yet the map built by
`Instrumented::new` has no entry for its path `[1]` (only protonode paths
are recorded). -/
theorem every_node_path_mapped_counterexample :
    (netC9.findPath? [1]).isSome ∧
    lookupByPath (Instrumented.new netC9).2.protonodes_by_path [1] = none := by
  constructor
  · rfl
  · decide

end Graphite
